import Mathlib

/-!
Shallow embedding of the mortgage amortization/acceleration engine
(`MortgageCalculator` in the repository source) and verification of its
specification.

Modelling conventions:
* JS floating-point numbers are idealized as exact rationals (`ℚ`).
* Calendar year-months are modelled as a month index `ym : ℤ`
  (`ym = year * 12 + month0` with `month0 ∈ [0, 12)`, matching
  `date.getFullYear() * 12 + date.getMonth()` in the source).
* Day-resolution dates (used by the bi-weekly loop) are modelled as a
  Gregorian day number `day : ℤ` (days since 1970-01-01, proleptic
  Gregorian calendar, UTC).  `daysFromCivil` / `civilFromDays` implement
  the standard civil-calendar conversion that `new Date(...)` /
  `getFullYear()` / `getMonth()` perform.
* Each `while` loop of the source is compiled to a structurally
  recursive function on a fuel argument; the fuel is the loop's own
  iteration ceiling (`paymentNumber < cap` becomes `fuel > 0`, with
  `fuel = cap - paymentNumber` throughout).  The ledger is accumulated
  in reverse (newest record first, as `revSchedule`) and reversed once
  at the end; `schedule[schedule.length - 1]` in the source is
  `revSchedule.head?` here.
-/

namespace Mortgage

/-- The epsilon of the loop guards: `balance > 0.01`. -/
def eps : ℚ := 1 / 100

/-- Day number of a civil (proleptic Gregorian) date, days since
1970-01-01.  Standard civil-from-days algorithm, as performed by the
JavaScript `Date` object for UTC dates. -/
def daysFromCivil (y m d : ℤ) : ℤ :=
  let y2 := if m ≤ 2 then y - 1 else y
  let era := Int.fdiv y2 400
  let yoe := y2 - era * 400
  let mp := Int.emod (m + 9) 12
  let doy := Int.fdiv (153 * mp + 2) 5 + d - 1
  let doe := yoe * 365 + Int.fdiv yoe 4 - Int.fdiv yoe 100 + doy
  era * 146097 + doe - 719468

/-- Civil (proleptic Gregorian) date `(year, month, dayOfMonth)` of a day
number (days since 1970-01-01), `month ∈ 1..12`. -/
def civilFromDays (z : ℤ) : ℤ × ℤ × ℤ :=
  let z2 := z + 719468
  let era := Int.fdiv z2 146097
  let doe := z2 - era * 146097
  let yoe := Int.fdiv (doe - Int.fdiv doe 1460 + Int.fdiv doe 36524 - Int.fdiv doe 146096) 365
  let y := yoe + era * 400
  let doy := doe - (365 * yoe + Int.fdiv yoe 4 - Int.fdiv yoe 100)
  let mp := Int.fdiv (5 * doy + 2) 153
  let d := doy - Int.fdiv (153 * mp + 2) 5 + 1
  let m := mp + (if mp < 10 then 3 else -9)
  (if m ≤ 2 then y + 1 else y, m, d)

/-- Day number of the first day of the month with month index `ym`
(`new Date(startDate + '-01')` in the source). -/
def firstDayOfYM (ym : ℤ) : ℤ :=
  daysFromCivil (Int.fdiv ym 12) (Int.emod ym 12 + 1) 1

/-- Month index (`getFullYear() * 12 + getMonth()`) of a day number. -/
def ymOfDay (z : ℤ) : ℤ :=
  let c := civilFromDays z
  c.1 * 12 + (c.2.1 - 1)

/-- JavaScript `getMonth()` (0-based month) of a day number. -/
def month0OfDay (z : ℤ) : ℤ := (civilFromDays z).2.1 - 1

/-- JavaScript `getFullYear()` of a day number. -/
def yearOfDay (z : ℤ) : ℤ := (civilFromDays z).1

/-- The loan definition handed to the engine.  `startYM` is the month
index of the `startDate` (`"YYYY-MM"`) field. -/
structure LoanData where
  principal : ℚ
  annualRate : ℚ
  termYears : ℤ
  startYM : ℤ
deriving DecidableEq

/-- The acceleration options of `generateAcceleratedSchedule`.
`lumpSumDate` is the month index of the `lumpSumDate` (`"YYYY-MM"`)
field when supplied. -/
structure AccelOptions where
  extraMonthly : ℚ
  biweekly : Bool
  lumpSum : ℚ
  lumpSumDate : Option ℤ
  annualExtra : ℚ
  annualExtraMonth : ℤ
deriving DecidableEq

/-- One ledger row as pushed by the source's loops.  `ym` is the
formatted `date` (`"YYYY-MM"`) as a month index; `day` is the `dateObj`
as a day number. -/
structure PaymentRecord where
  paymentNumber : ℕ
  ym : ℤ
  day : ℤ
  payment : ℚ
  principal : ℚ
  interest : ℚ
  extraPayment : ℚ
  balance : ℚ
  cumulativeInterest : ℚ
deriving DecidableEq

/-- The value returned by both schedule generators.  `payoffYM` is the
`payoffDate` (`"YYYY-MM"`) as a month index. -/
structure ScheduleResult where
  schedule : List PaymentRecord
  monthlyPayment : ℚ
  totalInterest : ℚ
  totalPayments : ℕ
  payoffYM : ℤ
deriving DecidableEq

/-- `calculateMonthlyPayment(principal, annualRate, termYears)` from the
source: zero-rate straight line, otherwise the annuity formula
`P * r(1+r)^n / ((1+r)^n - 1)` with `r = annualRate/100/12`,
`n = termYears * 12`. -/
def calculateMonthlyPayment (principal annualRate : ℚ) (termYears : ℤ) : ℚ :=
  if annualRate = 0 then
    principal / ((termYears : ℚ) * 12)
  else
    let monthlyRate := annualRate / 100 / 12
    let numPayments : ℤ := termYears * 12
    principal * (monthlyRate * (1 + monthlyRate) ^ numPayments) /
      ((1 + monthlyRate) ^ numPayments - 1)

/-- The mutable state of one scheduling pass: the loop-local variables of
the source's loops.  `lumpApplied` is unused (constantly `false`) in the
standard loop, which has no lump-sum logic. -/
structure LoopState where
  balance : ℚ
  cumInterest : ℚ
  paymentNumber : ℕ
  lumpApplied : Bool
  revSchedule : List PaymentRecord
deriving DecidableEq

/-- Initial loop state: `balance = principal`, counters zero, empty
ledger. -/
def initState (loan : LoanData) : LoopState :=
  { balance := loan.principal, cumInterest := 0, paymentNumber := 0,
    lumpApplied := false, revSchedule := [] }

/-- Generic compilation of the source's `while (balance > 0.01 &&
paymentNumber < cap)` loops: fuel counts the remaining iterations
allowed by the cap.  (The `if (balance <= 0.01) break` at the bottom of
the accelerated loops is the re-check of the same guard and needs no
separate translation.) -/
def runLoop (step : LoopState → LoopState) : ℕ → LoopState → LoopState
  | 0, s => s
  | fuel + 1, s => if eps < s.balance then runLoop step fuel (step s) else s

/-- One iteration of the standard (`generateOriginalSchedule`) loop. -/
def origStep (loan : LoanData) (M r : ℚ) (s : LoopState) : LoopState :=
  let ym := loan.startYM + (s.paymentNumber : ℤ)
  let interest := s.balance * r
  let principal0 := M - interest
  let principal := if s.balance < principal0 then s.balance else principal0
  let actual := principal + interest
  let newBal := s.balance - principal
  let ci := s.cumInterest + interest
  { balance := newBal, cumInterest := ci, paymentNumber := s.paymentNumber + 1,
    lumpApplied := s.lumpApplied,
    revSchedule :=
      { paymentNumber := s.paymentNumber + 1, ym := ym, day := firstDayOfYM ym,
        payment := actual, principal := principal, interest := interest,
        extraPayment := 0, balance := max 0 newBal, cumulativeInterest := ci }
        :: s.revSchedule }

/-- The final loop state of `generateOriginalSchedule`; the loop's cap is
`paymentNumber < termYears * 12`. -/
def originalFinalState (loan : LoanData) : LoopState :=
  let M := calculateMonthlyPayment loan.principal loan.annualRate loan.termYears
  let r := loan.annualRate / 100 / 12
  runLoop (origStep loan M r) (loan.termYears * 12).toNat (initState loan)

/-- `generateOriginalSchedule(loanData)` from the source. -/
def generateOriginalSchedule (loan : LoanData) : ScheduleResult :=
  let M := calculateMonthlyPayment loan.principal loan.annualRate loan.termYears
  let fs := originalFinalState loan
  { schedule := fs.revSchedule.reverse, monthlyPayment := M,
    totalInterest := fs.cumInterest, totalPayments := fs.paymentNumber,
    payoffYM := ((fs.revSchedule.head?).map (fun rec => rec.ym)).getD loan.startYM }

/-- The parsed lump-sum month: `lumpSumDateObj` is set only when
`lumpSum > 0` and a `lumpSumDate` was supplied. -/
def lumpObjOf (opts : AccelOptions) : Option ℤ :=
  if 0 < opts.lumpSum then opts.lumpSumDate else none

/-- Whether the lump sum fires this monthly period (`!lumpSumApplied &&
lumpSumDateObj && paymentMonth >= lumpSumMonth`). -/
def mLumpFires (opts : AccelOptions) (applied : Bool) (ym : ℤ) : Bool :=
  !applied &&
    (match lumpObjOf opts with
     | some lym => decide (lym ≤ ym)
     | none => false)

/-- The extra applied in one monthly accelerated period: extra-monthly
every period, lump sum when it fires, annual extra when the month index
matches. -/
def mExtraOf (opts : AccelOptions) (applied : Bool) (ym : ℤ) : ℚ :=
  (if 0 < opts.extraMonthly then opts.extraMonthly else 0) +
    (if mLumpFires opts applied ym then opts.lumpSum else 0) +
    (if 0 < opts.annualExtra ∧ Int.emod ym 12 = opts.annualExtraMonth then
      opts.annualExtra else 0)

/-- One iteration of the monthly-stepped accelerated loop. -/
def mStep (loan : LoanData) (opts : AccelOptions) (M r : ℚ) (s : LoopState) : LoopState :=
  let ym := loan.startYM + (s.paymentNumber : ℤ)
  let interest := s.balance * r
  let lumpFires := mLumpFires opts s.lumpApplied ym
  let extra := mExtraOf opts s.lumpApplied ym
  let principal0 := M - interest + extra
  let principal := if s.balance < principal0 then s.balance else principal0
  let actual := if s.balance + interest < M - extra then s.balance + interest else M
  let newBal := s.balance - principal
  let ci := s.cumInterest + interest
  { balance := newBal, cumInterest := ci, paymentNumber := s.paymentNumber + 1,
    lumpApplied := s.lumpApplied || lumpFires,
    revSchedule :=
      { paymentNumber := s.paymentNumber + 1, ym := ym, day := firstDayOfYM ym,
        payment := actual, principal := principal - extra, interest := interest,
        extraPayment := extra, balance := max 0 newBal, cumulativeInterest := ci }
        :: s.revSchedule }

/-- Whether the lump sum fires this bi-weekly period (full-date
comparison `paymentDate >= lumpSumDateObj`). -/
def bwLumpFires (opts : AccelOptions) (applied : Bool) (day : ℤ) : Bool :=
  !applied &&
    (match lumpObjOf opts with
     | some lym => decide (firstDayOfYM lym ≤ day)
     | none => false)

/-- The bi-weekly annual-extra de-duplication: fire only if the last
appended record is absent or lies in a different month or year. -/
def bwAnnOk (opts : AccelOptions) (prev : Option PaymentRecord) (day : ℤ) : Bool :=
  match prev with
  | none => true
  | some lr =>
      decide (month0OfDay lr.day ≠ opts.annualExtraMonth ∨
              yearOfDay lr.day ≠ yearOfDay day)

/-- The extra applied in one bi-weekly period: extra-monthly pro-rated
by 2.17, lump sum when it fires, annual extra when the month matches and
the de-duplication check passes. -/
def bwExtraOf (opts : AccelOptions) (applied : Bool) (prev : Option PaymentRecord)
    (day : ℤ) : ℚ :=
  (if 0 < opts.extraMonthly then opts.extraMonthly / (217 / 100) else 0) +
    (if bwLumpFires opts applied day then opts.lumpSum else 0) +
    (if 0 < opts.annualExtra ∧ month0OfDay day = opts.annualExtraMonth ∧
        bwAnnOk opts prev day = true then
      opts.annualExtra else 0)

/-- One iteration of the bi-weekly accelerated loop. -/
def bwStep (loan : LoanData) (opts : AccelOptions) (M : ℚ) (s : LoopState) : LoopState :=
  let day := firstDayOfYM loan.startYM + 14 * (s.paymentNumber : ℤ)
  let dailyRate := loan.annualRate / 100 / 365
  let interest := s.balance * dailyRate * 14
  let lumpFires := bwLumpFires opts s.lumpApplied day
  let extra := bwExtraOf opts s.lumpApplied s.revSchedule.head? day
  let pay0 := M / 2
  let principal0 := pay0 - interest + extra
  let principal := if s.balance < principal0 then s.balance else principal0
  let pay := if s.balance < principal0 then principal + interest else pay0
  let newBal := s.balance - principal
  let ci := s.cumInterest + interest
  { balance := newBal, cumInterest := ci, paymentNumber := s.paymentNumber + 1,
    lumpApplied := s.lumpApplied || lumpFires,
    revSchedule :=
      { paymentNumber := s.paymentNumber + 1, ym := ymOfDay day, day := day,
        payment := pay, principal := principal - extra, interest := interest,
        extraPayment := extra, balance := max 0 newBal, cumulativeInterest := ci }
        :: s.revSchedule }

/-- The final loop state of `generateAcceleratedSchedule`.  The monthly
loop's cap is `maxPayments = termYears * 12 * 2`; the bi-weekly loop's
cap is `maxPayments * 2`. -/
def acceleratedFinalState (loan : LoanData) (opts : AccelOptions) : LoopState :=
  let M := calculateMonthlyPayment loan.principal loan.annualRate loan.termYears
  let r := loan.annualRate / 100 / 12
  if opts.biweekly then
    runLoop (bwStep loan opts M) ((loan.termYears * 12 * 2) * 2).toNat (initState loan)
  else
    runLoop (mStep loan opts M r) (loan.termYears * 12 * 2).toNat (initState loan)

/-- `generateAcceleratedSchedule(loanData, accelerationOptions)` from the
source. -/
def generateAcceleratedSchedule (loan : LoanData) (opts : AccelOptions) : ScheduleResult :=
  let M := calculateMonthlyPayment loan.principal loan.annualRate loan.termYears
  let fs := acceleratedFinalState loan opts
  { schedule := fs.revSchedule.reverse, monthlyPayment := M,
    totalInterest := fs.cumInterest, totalPayments := fs.paymentNumber,
    payoffYM := ((fs.revSchedule.head?).map (fun rec => rec.ym)).getD loan.startYM }

/-- The comparison summary returned by `calculateSavings`. -/
structure SavingsSummary where
  monthsSaved : ℤ
  yearsSaved : ℤ
  remainingMonths : ℤ
  timeSavedText : String
  interestSaved : ℚ
  originalInterest : ℚ
  acceleratedInterest : ℚ
deriving DecidableEq

/-- `calculateSavings(originalResult, acceleratedResult)` from the
source.  `parseDate` turns the `"YYYY-MM"` payoff date into the first
day of that month; the difference is taken in milliseconds and divided
by `1000*60*60*24*30.44`; `Math.round` is round-half-up, `Math.floor` of
the quotient is flooring division, and the JS `%` is the truncating
remainder. -/
def calculateSavings (o a : ScheduleResult) : SavingsSummary :=
  let d1 := firstDayOfYM o.payoffYM
  let d2 := firstDayOfYM a.payoffYM
  let timeDiffMs : ℚ := ((d1 - d2 : ℤ) : ℚ) * 86400000
  let monthsSaved : ℤ := round (timeDiffMs / (1000 * 60 * 60 * 24 * (3044 / 100)))
  let yearsSaved := Int.fdiv monthsSaved 12
  let remainingMonths := Int.tmod monthsSaved 12
  let timeSavedText :=
    if 0 < yearsSaved then
      (toString yearsSaved ++ " year" ++ (if yearsSaved ≠ 1 then "s" else "")) ++
        (if 0 < remainingMonths then
          ", " ++ toString remainingMonths ++ " month" ++
            (if remainingMonths ≠ 1 then "s" else "")
         else "")
    else if 0 < remainingMonths then
      toString remainingMonths ++ " month" ++ (if remainingMonths ≠ 1 then "s" else "")
    else "No time saved"
  { monthsSaved := monthsSaved, yearsSaved := yearsSaved,
    remainingMonths := remainingMonths, timeSavedText := timeSavedText,
    interestSaved := o.totalInterest - a.totalInterest,
    originalInterest := o.totalInterest, acceleratedInterest := a.totalInterest }

/-- The spec-side periodic payment (§4.1 of the specification, stated in
the spec's own words): straight line `principal / (termYears * 12)` at
zero rate, otherwise `principal * r * (1+r)^n / ((1+r)^n - 1)` with
`r = annualRatePercent / 100 / 12` and `n = termYears * 12`. -/
def computePeriodicPaymentSpec (principal annualRatePercent : ℚ) (termYears : ℤ) : ℚ :=
  if annualRatePercent = 0 then
    principal / ((termYears : ℚ) * 12)
  else
    let r := annualRatePercent / 100 / 12
    let n : ℤ := termYears * 12
    principal * r * (1 + r) ^ n / ((1 + r) ^ n - 1)

/-- Every loop iteration appends exactly one ledger record. -/
lemma origStep_length (loan : LoanData) (M r : ℚ) (s : LoopState) :
    (origStep loan M r s).revSchedule.length = s.revSchedule.length + 1 := rfl

lemma mStep_length (loan : LoanData) (opts : AccelOptions) (M r : ℚ) (s : LoopState) :
    (mStep loan opts M r s).revSchedule.length = s.revSchedule.length + 1 := rfl

lemma bwStep_length (loan : LoanData) (opts : AccelOptions) (M : ℚ) (s : LoopState) :
    (bwStep loan opts M s).revSchedule.length = s.revSchedule.length + 1 := rfl

/-- A fuel-bounded loop appends at most `fuel` records. -/
lemma runLoop_length_le (step : LoopState → LoopState)
    (hstep : ∀ t, (step t).revSchedule.length = t.revSchedule.length + 1) :
    ∀ (f : ℕ) (s : LoopState),
      (runLoop step f s).revSchedule.length ≤ s.revSchedule.length + f := by
  intro f
  induction f with
  | zero => intro s; simp [runLoop]
  | succ n ih =>
      intro s
      rw [runLoop]
      split
      · calc (runLoop step n (step s)).revSchedule.length
            ≤ (step s).revSchedule.length + n := ih _
          _ = s.revSchedule.length + (n + 1) := by rw [hstep]; omega
      · omega

/-- C3: for every principal > 0, annualRatePercent ≥ 0, and integer
termYears > 0, `calculateMonthlyPayment` returns exactly
`principal / (termYears * 12)` when the rate is zero, and otherwise the
annuity formula `principal * r * (1+r)^n / ((1+r)^n - 1)` with
`r = annualRatePercent / 100 / 12` and `n = termYears * 12` — i.e. it
agrees with the spec-side `computePeriodicPaymentSpec`. -/
theorem c3_periodic_payment_formula (principal annualRatePercent : ℚ) (termYears : ℤ)
    (hP : 0 < principal) (hr : 0 ≤ annualRatePercent) (hT : 0 < termYears) :
    calculateMonthlyPayment principal annualRatePercent termYears =
      computePeriodicPaymentSpec principal annualRatePercent termYears := by
  unfold calculateMonthlyPayment computePeriodicPaymentSpec
  split
  · rfl
  · dsimp only
    rw [mul_assoc]

/-- Witness for C3 at principal = 1200, rate = 0, term = 10 years. -/
theorem c3_periodic_payment_formula_witness :
    0 < (1200 : ℚ) ∧ (0 : ℚ) ≤ 0 ∧ 0 < (10 : ℤ) ∧
      calculateMonthlyPayment 1200 0 10 = computePeriodicPaymentSpec 1200 0 10 :=
  ⟨by norm_num, le_refl 0, by norm_num,
    c3_periodic_payment_formula 1200 0 10 (by norm_num) (le_refl 0) (by norm_num)⟩

/-- C9: `calculateSavings` returns `monthsSaved` equal to the day
difference of the two payoff dates divided by 30.44 and rounded,
`yearsSaved = floor(monthsSaved / 12)`, `remainingMonths` the remainder
of `monthsSaved` by 12 (JS `%`, truncating), and `interestSaved` the
difference of the two total interests, which is returned as-is (possibly
≤ 0) with no error flag. -/
theorem c9_savings_formulas (o a : ScheduleResult) :
    (calculateSavings o a).monthsSaved =
      round (((firstDayOfYM o.payoffYM - firstDayOfYM a.payoffYM : ℤ) : ℚ) / (3044 / 100)) ∧
    (calculateSavings o a).yearsSaved = Int.fdiv (calculateSavings o a).monthsSaved 12 ∧
    (calculateSavings o a).remainingMonths = Int.tmod (calculateSavings o a).monthsSaved 12 ∧
    (calculateSavings o a).interestSaved = o.totalInterest - a.totalInterest := by
  unfold calculateSavings
  dsimp only
  refine ⟨?_, rfl, rfl, rfl⟩
  congr 1
  rw [show ((1000 : ℚ) * 60 * 60 * 24 * (3044 / 100)) = 86400000 * (3044 / 100) from by
        norm_num,
    mul_comm ((firstDayOfYM o.payoffYM - firstDayOfYM a.payoffYM : ℤ) : ℚ) 86400000,
    mul_div_mul_left _ _ (by norm_num : (86400000 : ℚ) ≠ 0)]

/-- C10: the accelerated generator terminates for every input; the
monthly-stepped loop appends at most `termYears * 12 * 2` records and
the bi-weekly loop at most `termYears * 12 * 4` records. -/
theorem c10_schedule_length_bounds (loan : LoanData) (opts : AccelOptions) :
    (generateAcceleratedSchedule loan opts).schedule.length ≤
      (if opts.biweekly then (loan.termYears * 12 * 4).toNat
       else (loan.termYears * 12 * 2).toNat) := by
  unfold generateAcceleratedSchedule acceleratedFinalState
  simp only [List.length_reverse]
  by_cases hbw : opts.biweekly
  · simp only [hbw, if_true]
    have h4 : (loan.termYears * 12 * 2) * 2 = loan.termYears * 12 * 4 := by ring
    rw [← h4]
    have := runLoop_length_le (bwStep loan opts
        (calculateMonthlyPayment loan.principal loan.annualRate loan.termYears))
      (fun t => bwStep_length loan opts _ t)
      ((loan.termYears * 12 * 2) * 2).toNat (initState loan)
    simpa [initState] using this
  · simp only [hbw, if_false]
    have := runLoop_length_le (mStep loan opts
        (calculateMonthlyPayment loan.principal loan.annualRate loan.termYears)
        (loan.annualRate / 100 / 12))
      (fun t => mStep_length loan opts _ _ t)
      (loan.termYears * 12 * 2).toNat (initState loan)
    simpa [initState] using this

/-- The exact balance of a fully-amortizing loan after `k` un-truncated
periods at periodic payment `M` and periodic rate `r` (closed form of
the loop recurrence `balance := balance * (1 + r) - M`). -/
def annuityBalance (P M r : ℚ) (k : ℕ) : ℚ :=
  if r = 0 then P - k * M else M / r - (1 + r) ^ k * (M / r - P)

lemma annuityBalance_zero (P M r : ℚ) : annuityBalance P M r 0 = P := by
  unfold annuityBalance
  split
  · push_cast; ring
  · ring_nf

lemma annuityBalance_step (P M r : ℚ) (k : ℕ) :
    annuityBalance P M r (k + 1) = annuityBalance P M r k * (1 + r) - M := by
  unfold annuityBalance
  split
  next h => subst h; push_cast; ring
  next h => field_simp; ring

/-- The annuity payment formula over a natural-number period count. -/
def annuityM (P r : ℚ) (n : ℕ) : ℚ := P * (r * (1 + r) ^ n) / ((1 + r) ^ n - 1)

lemma calculateMonthlyPayment_eq_annuityM (P rate : ℚ) (T : ℤ)
    (h0 : rate ≠ 0) (hT : 1 ≤ T) :
    calculateMonthlyPayment P rate T = annuityM P (rate / 100 / 12) (T * 12).toNat := by
  unfold calculateMonthlyPayment annuityM
  rw [if_neg h0]
  dsimp only
  set n := (T * 12).toNat with hn
  have h12 : (T * 12 : ℤ) = (n : ℤ) := by
    rw [hn]
    exact (Int.toNat_of_nonneg (by omega)).symm
  rw [h12, zpow_natCast]

lemma annuityBalance_closed (P r : ℚ) (hr : 0 < r) (n : ℕ) (hn : n ≠ 0) (k : ℕ) :
    annuityBalance P (annuityM P r n) r k =
      P * ((1 + r) ^ n - (1 + r) ^ k) / ((1 + r) ^ n - 1) := by
  have hA : 1 < (1 + r) ^ n := one_lt_pow₀ (by linarith) hn
  have hA1 : (1 + r) ^ n - 1 ≠ 0 := ne_of_gt (by linarith)
  unfold annuityBalance annuityM
  rw [if_neg (ne_of_gt hr)]
  field_simp
  ring

/-- With the engine's own monthly payment, the closed-form balance is
non-negative throughout the loan's nominal term. -/
lemma annuityBalance_loan_nonneg (P rate : ℚ) (T : ℤ)
    (hP : 0 < P) (hr : 0 ≤ rate) (hT : 1 ≤ T) (k : ℕ) (hk : k ≤ (T * 12).toNat) :
    0 ≤ annuityBalance P (calculateMonthlyPayment P rate T) (rate / 100 / 12) k := by
  have hT12 : (0 : ℚ) < (T : ℚ) * 12 := by
    have : (1 : ℚ) ≤ (T : ℚ) := by exact_mod_cast hT
    linarith
  have hcast : (((T * 12).toNat : ℕ) : ℚ) = (T : ℚ) * 12 := by
    have h1 : ((T * 12).toNat : ℤ) = T * 12 := Int.toNat_of_nonneg (by omega)
    have h2 := congrArg (fun z : ℤ => (z : ℚ)) h1
    push_cast at h2
    exact h2
  rcases eq_or_lt_of_le hr with h0 | h0
  · have hrate : rate = 0 := h0.symm
    subst hrate
    have hr0 : (0 : ℚ) / 100 / 12 = 0 := by norm_num
    rw [hr0]
    unfold annuityBalance calculateMonthlyPayment
    rw [if_pos rfl, if_pos rfl]
    have h1 : (k : ℚ) ≤ (T : ℚ) * 12 := by
      calc (k : ℚ) ≤ (((T * 12).toNat : ℕ) : ℚ) := by exact_mod_cast hk
        _ = (T : ℚ) * 12 := hcast
    have h2 : 0 ≤ P / ((T : ℚ) * 12) := by positivity
    have h3 : (k : ℚ) * (P / ((T : ℚ) * 12)) ≤ ((T : ℚ) * 12) * (P / ((T : ℚ) * 12)) :=
      mul_le_mul_of_nonneg_right h1 h2
    have h4 : ((T : ℚ) * 12) * (P / ((T : ℚ) * 12)) = P := by
      field_simp
    linarith
  · have hrp : 0 < rate / 100 / 12 := by positivity
    have hn : (T * 12).toNat ≠ 0 := by omega
    rw [calculateMonthlyPayment_eq_annuityM P rate T (ne_of_gt h0) hT,
      annuityBalance_closed P _ hrp _ hn k]
    have hA : 1 < (1 + rate / 100 / 12) ^ (T * 12).toNat :=
      one_lt_pow₀ (by linarith) hn
    have hB : (1 + rate / 100 / 12) ^ k ≤ (1 + rate / 100 / 12) ^ (T * 12).toNat :=
      pow_le_pow_right₀ (by linarith) hk
    apply div_nonneg
    · apply mul_nonneg hP.le
      linarith
    · linarith

/-- With the engine's own monthly payment, the closed-form balance is
exactly zero after the full nominal term. -/
lemma annuityBalance_loan_final (P rate : ℚ) (T : ℤ)
    (hP : 0 < P) (hr : 0 ≤ rate) (hT : 1 ≤ T) :
    annuityBalance P (calculateMonthlyPayment P rate T) (rate / 100 / 12)
      ((T * 12).toNat) = 0 := by
  have hT12 : (0 : ℚ) < (T : ℚ) * 12 := by
    have : (1 : ℚ) ≤ (T : ℚ) := by exact_mod_cast hT
    linarith
  have hcast : (((T * 12).toNat : ℕ) : ℚ) = (T : ℚ) * 12 := by
    have h1 : ((T * 12).toNat : ℤ) = T * 12 := Int.toNat_of_nonneg (by omega)
    have h2 := congrArg (fun z : ℤ => (z : ℚ)) h1
    push_cast at h2
    exact h2
  rcases eq_or_lt_of_le hr with h0 | h0
  · have hrate : rate = 0 := h0.symm
    subst hrate
    have hr0 : (0 : ℚ) / 100 / 12 = 0 := by norm_num
    rw [hr0]
    unfold annuityBalance calculateMonthlyPayment
    rw [if_pos rfl, if_pos rfl, hcast]
    field_simp
  · have hrp : 0 < rate / 100 / 12 := by positivity
    have hn : (T * 12).toNat ≠ 0 := by omega
    rw [calculateMonthlyPayment_eq_annuityM P rate T (ne_of_gt h0) hT,
      annuityBalance_closed P _ hrp _ hn]
    simp

/-- Main invariant of the standard loop on the documented input domain:
as long as the closed-form balance stays in its nominal range, no
truncation fires, the loop balance tracks the closed form exactly, and
the loop exits either below epsilon or exactly at the nominal term (with
closed-form balance there). -/
lemma runLoop_orig_annuity (loan : LoanData) (P M r : ℚ) (n : ℕ)
    (hnn : ∀ k, k ≤ n → 0 ≤ annuityBalance P M r k) :
    ∀ (fuel : ℕ) (s : LoopState), s.paymentNumber + fuel = n →
      s.balance = annuityBalance P M r s.paymentNumber →
      (runLoop (origStep loan M r) fuel s).balance =
          annuityBalance P M r (runLoop (origStep loan M r) fuel s).paymentNumber ∧
        (runLoop (origStep loan M r) fuel s).paymentNumber ≤ n ∧
        ((runLoop (origStep loan M r) fuel s).paymentNumber = n ∨
          (runLoop (origStep loan M r) fuel s).balance ≤ eps) := by
  intro fuel
  induction fuel with
  | zero =>
      intro s hfu hbal
      simp only [runLoop]
      refine ⟨hbal, by omega, Or.inl (by omega)⟩
  | succ f ih =>
      intro s hfu hbal
      rw [runLoop]
      by_cases hb : eps < s.balance
      · rw [if_pos hb]
        have hk1 : s.paymentNumber + 1 ≤ n := by omega
        have habs : annuityBalance P M r (s.paymentNumber + 1) =
            s.balance * (1 + r) - M := by
          rw [annuityBalance_step, ← hbal]
        have hstep_bal : (origStep loan M r s).balance =
            annuityBalance P M r (s.paymentNumber + 1) := by
          have h1 : ¬ (s.balance < M - s.balance * r) := by
            intro hcon
            have h2 := hnn _ hk1
            rw [habs] at h2
            nlinarith
          simp only [origStep, if_neg h1]
          rw [habs]
          ring
        have hstep_pn : (origStep loan M r s).paymentNumber = s.paymentNumber + 1 := rfl
        have := ih (origStep loan M r s) (by rw [hstep_pn]; omega)
          (by rw [hstep_bal, hstep_pn])
        exact this
      · rw [if_neg hb]
        exact ⟨hbal, by omega, Or.inr (not_lt.1 hb)⟩

/-- On the documented input domain, the standard loop ends with balance
in `[0, eps]` and never exceeds the nominal number of periods. -/
lemma originalFinalState_valid (loan : LoanData)
    (hP : 0 < loan.principal) (hr : 0 ≤ loan.annualRate) (hT : 1 ≤ loan.termYears) :
    0 ≤ (originalFinalState loan).balance ∧
      (originalFinalState loan).balance ≤ eps ∧
      (originalFinalState loan).paymentNumber ≤ (loan.termYears * 12).toNat := by
  have hnn := fun k hk =>
    annuityBalance_loan_nonneg loan.principal loan.annualRate loan.termYears hP hr hT k hk
  have hinv := runLoop_orig_annuity loan loan.principal
    (calculateMonthlyPayment loan.principal loan.annualRate loan.termYears)
    (loan.annualRate / 100 / 12) ((loan.termYears * 12).toNat) hnn
    ((loan.termYears * 12).toNat) (initState loan) (by simp [initState])
    (by simp [initState, annuityBalance_zero])
  obtain ⟨hbal, hle, hend⟩ := hinv
  refine ⟨?_, ?_, hle⟩
  · rw [show (originalFinalState loan) = runLoop (origStep loan
        (calculateMonthlyPayment loan.principal loan.annualRate loan.termYears)
        (loan.annualRate / 100 / 12)) ((loan.termYears * 12).toNat) (initState loan)
        from rfl]
    rw [hbal]
    exact hnn _ hle
  · rw [show (originalFinalState loan) = runLoop (origStep loan
        (calculateMonthlyPayment loan.principal loan.annualRate loan.termYears)
        (loan.annualRate / 100 / 12)) ((loan.termYears * 12).toNat) (initState loan)
        from rfl]
    rcases hend with h | h
    · rw [hbal, h,
        annuityBalance_loan_final loan.principal loan.annualRate loan.termYears hP hr hT]
      unfold eps
      norm_num
    · exact h

/-- Sum of the `principal` fields of a ledger. -/
def sumPrincipal (l : List PaymentRecord) : ℚ := (l.map (fun rec => rec.principal)).sum

/-- Telescoping: each iteration moves exactly its recorded principal out
of the balance, so the ledger's principal total is the balance drop. -/
lemma runLoop_sumPrincipal (step : LoopState → LoopState)
    (hstep : ∀ t, sumPrincipal (step t).revSchedule =
      sumPrincipal t.revSchedule + (t.balance - (step t).balance)) :
    ∀ (f : ℕ) (s : LoopState),
      sumPrincipal (runLoop step f s).revSchedule =
        sumPrincipal s.revSchedule + (s.balance - (runLoop step f s).balance) := by
  intro f
  induction f with
  | zero => intro s; simp [runLoop]
  | succ n ih =>
      intro s
      rw [runLoop]
      split
      · have h1 := ih (step s)
        have h2 := hstep s
        rw [h1, h2]
        ring
      · simp

lemma origStep_sumPrincipal (loan : LoanData) (M r : ℚ) (t : LoopState) :
    sumPrincipal (origStep loan M r t).revSchedule =
      sumPrincipal t.revSchedule + (t.balance - (origStep loan M r t).balance) := by
  simp only [origStep, sumPrincipal, List.map_cons, List.sum_cons]
  ring

/-- The most recent record's `balance` field always shows
`max 0 balance` for the current loop balance. -/
lemma runLoop_head_balance (step : LoopState → LoopState)
    (hstep : ∀ t rec, (step t).revSchedule.head? = some rec →
      rec.balance = max 0 (step t).balance) :
    ∀ (f : ℕ) (s : LoopState),
      (∀ rec, s.revSchedule.head? = some rec → rec.balance = max 0 s.balance) →
      ∀ rec, (runLoop step f s).revSchedule.head? = some rec →
        rec.balance = max 0 (runLoop step f s).balance := by
  intro f
  induction f with
  | zero => intro s hs; simpa [runLoop] using hs
  | succ n ih =>
      intro s hs
      rw [runLoop]
      split
      · exact ih (step s) (hstep s)
      · exact hs

lemma origStep_head_balance (loan : LoanData) (M r : ℚ) (t : LoopState) :
    ∀ rec, (origStep loan M r t).revSchedule.head? = some rec →
      rec.balance = max 0 (origStep loan M r t).balance := by
  intro rec h
  simp only [origStep, List.head?_cons, Option.some.injEq] at h
  subst h
  rfl

/-- The ledger never shrinks across iterations. -/
lemma runLoop_length_mono (step : LoopState → LoopState)
    (hstep : ∀ t, t.revSchedule.length ≤ (step t).revSchedule.length) :
    ∀ (f : ℕ) (s : LoopState),
      s.revSchedule.length ≤ (runLoop step f s).revSchedule.length := by
  intro f
  induction f with
  | zero => intro s; simp [runLoop]
  | succ n ih =>
      intro s
      rw [runLoop]
      split
      · exact le_trans (hstep s) (ih (step s))
      · exact le_refl _

/-- The payment counter always equals the number of appended records. -/
lemma runLoop_pn_len (step : LoopState → LoopState)
    (hstep : ∀ t, (step t).paymentNumber = t.paymentNumber + 1 ∧
      (step t).revSchedule.length = t.revSchedule.length + 1) :
    ∀ (f : ℕ) (s : LoopState), s.paymentNumber = s.revSchedule.length →
      (runLoop step f s).paymentNumber = (runLoop step f s).revSchedule.length := by
  intro f
  induction f with
  | zero => intro s hs; simpa [runLoop] using hs
  | succ n ih =>
      intro s hs
      rw [runLoop]
      split
      · exact ih (step s) (by rw [(hstep s).1, (hstep s).2, hs])
      · exact hs

/-- C2: on the documented domain (positive principal, non-negative rate,
positive integer term), the standard schedule's principal fields sum to
the loan principal within epsilon; the schedule is non-empty whenever
the principal exceeds epsilon; and the last record's `balance` field
lies in `[0, eps]`. -/
theorem c2_standard_schedule_totals (loan : LoanData)
    (hP : 0 < loan.principal) (hr : 0 ≤ loan.annualRate) (hT : 1 ≤ loan.termYears) :
    |((generateOriginalSchedule loan).schedule.map (fun rec => rec.principal)).sum -
        loan.principal| ≤ eps ∧
    (eps < loan.principal → (generateOriginalSchedule loan).schedule ≠ []) ∧
    ∀ rec, (generateOriginalSchedule loan).schedule.getLast? = some rec →
      0 ≤ rec.balance ∧ rec.balance ≤ eps := by
  obtain ⟨hb0, hbe, _⟩ := originalFinalState_valid loan hP hr hT
  have hM : (generateOriginalSchedule loan).schedule =
      (originalFinalState loan).revSchedule.reverse := rfl
  constructor
  · have htel := runLoop_sumPrincipal _ (origStep_sumPrincipal loan
      (calculateMonthlyPayment loan.principal loan.annualRate loan.termYears)
      (loan.annualRate / 100 / 12)) ((loan.termYears * 12).toNat) (initState loan)
    have hsum : ((generateOriginalSchedule loan).schedule.map
        (fun rec => rec.principal)).sum = sumPrincipal (originalFinalState loan).revSchedule := by
      rw [hM]
      simp [sumPrincipal, List.map_reverse, List.sum_reverse]
    rw [hsum]
    have hinit : sumPrincipal (initState loan).revSchedule = 0 := rfl
    have : sumPrincipal (originalFinalState loan).revSchedule =
        loan.principal - (originalFinalState loan).balance := by
      have h2 : originalFinalState loan = runLoop (origStep loan
        (calculateMonthlyPayment loan.principal loan.annualRate loan.termYears)
        (loan.annualRate / 100 / 12)) ((loan.termYears * 12).toNat) (initState loan) := rfl
      rw [h2] at *
      rw [htel, hinit]
      simp [initState]
    rw [this]
    rw [abs_of_nonpos (by linarith)]
    linarith
  constructor
  · intro hPe
    have hfuel : 1 ≤ (loan.termYears * 12).toNat := by omega
    obtain ⟨m, hm⟩ : ∃ m, (loan.termYears * 12).toNat = m + 1 :=
      ⟨(loan.termYears * 12).toNat - 1, by omega⟩
    have h1 : (originalFinalState loan).revSchedule.length ≥ 1 := by
      have h2 : originalFinalState loan = runLoop (origStep loan
        (calculateMonthlyPayment loan.principal loan.annualRate loan.termYears)
        (loan.annualRate / 100 / 12)) ((loan.termYears * 12).toNat) (initState loan) := rfl
      rw [h2, hm, runLoop, if_pos (by simpa [initState] using hPe)]
      have := runLoop_length_mono (origStep loan
          (calculateMonthlyPayment loan.principal loan.annualRate loan.termYears)
          (loan.annualRate / 100 / 12))
        (fun t => by rw [origStep_length]; omega) m
        (origStep loan
          (calculateMonthlyPayment loan.principal loan.annualRate loan.termYears)
          (loan.annualRate / 100 / 12) (initState loan))
      calc (1 : ℕ) = (origStep loan _ _ (initState loan)).revSchedule.length := by
            rw [origStep_length]; rfl
        _ ≤ _ := this
    rw [hM]
    intro hcon
    rw [← List.length_eq_zero] at hcon
    rw [List.length_reverse] at hcon
    omega
  · intro rec hrec
    have hofs : originalFinalState loan = runLoop (origStep loan
        (calculateMonthlyPayment loan.principal loan.annualRate loan.termYears)
        (loan.annualRate / 100 / 12)) ((loan.termYears * 12).toNat) (initState loan) := rfl
    have hhead := runLoop_head_balance _ (origStep_head_balance loan
      (calculateMonthlyPayment loan.principal loan.annualRate loan.termYears)
      (loan.annualRate / 100 / 12)) ((loan.termYears * 12).toNat) (initState loan)
      (by intro r h; simp [initState] at h) rec
    rw [hM, List.getLast?_reverse] at hrec
    have h3 := hhead hrec
    rw [← hofs] at h3
    rw [h3, max_eq_right hb0]
    exact ⟨hb0, hbe⟩

/-- Witness for C2 at the loan (principal 1000, rate 0, 1 year). -/
theorem c2_standard_schedule_totals_witness :
    0 < (1000 : ℚ) ∧ (0 : ℚ) ≤ 0 ∧ (1 : ℤ) ≤ 1 ∧
      |((generateOriginalSchedule ⟨1000, 0, 1, 24288⟩).schedule.map
          (fun rec => rec.principal)).sum - 1000| ≤ eps :=
  ⟨by norm_num, le_refl 0, le_refl 1,
    (c2_standard_schedule_totals ⟨1000, 0, 1, 24288⟩ (by norm_num) (le_refl 0)
      (le_refl 1)).1⟩

/-- The situation the spec calls safety-ceiling exhaustion for the
standard loop: the loop stopped because of its iteration cap
(`paymentNumber < termYears * 12` failed) while the balance was still
above epsilon. -/
def capExhaustedOrig (loan : LoanData) : Prop :=
  ¬ (((originalFinalState loan).paymentNumber : ℤ) < loan.termYears * 12) ∧
    eps < (originalFinalState loan).balance

instance (loan : LoanData) : Decidable (capExhaustedOrig loan) := by
  unfold capExhaustedOrig
  infer_instance

/-- C1 counterexample: on the degenerate loan (principal 1000, rate 12,
termYears −1) the standard loop exhausts its iteration ceiling with the
balance still 1000 > epsilon, yet `generateOriginalSchedule` returns an
ordinary `ScheduleResult` — empty truncated ledger, `totalPayments = 0`,
`payoffDate` falling back to the start period — with no failure
indication of any kind, contradicting the claim that ceiling exhaustion
is surfaced as a distinguishable failure. -/
theorem c1_cap_exhaustion_counterexample :
    capExhaustedOrig ⟨1000, 12, -1, 24288⟩ ∧
      (generateOriginalSchedule ⟨1000, 12, -1, 24288⟩).schedule = [] ∧
      (generateOriginalSchedule ⟨1000, 12, -1, 24288⟩).totalPayments = 0 ∧
      (generateOriginalSchedule ⟨1000, 12, -1, 24288⟩).payoffYM = 24288 := by
  norm_num [capExhaustedOrig, generateOriginalSchedule, originalFinalState, initState,
    runLoop, eps]

/-- C1 (amended): the engine never surfaces a distinguishable failure:
whenever the standard loop exhausts its ceiling with balance above
epsilon it still returns an ordinary `ScheduleResult` whose totals just
describe the truncated ledger; and on the documented input domain
(positive principal, non-negative rate, positive integer term) the
ceiling is never exhausted with balance above epsilon in the first
place. -/
theorem c1_no_failure_surfaced (loan : LoanData) :
    (capExhaustedOrig loan →
      (generateOriginalSchedule loan).totalPayments =
        (generateOriginalSchedule loan).schedule.length) ∧
    (0 < loan.principal → 0 ≤ loan.annualRate → 1 ≤ loan.termYears →
      ¬ capExhaustedOrig loan) := by
  constructor
  · intro _
    have h1 : (generateOriginalSchedule loan).totalPayments =
        (originalFinalState loan).paymentNumber := rfl
    have h2 : (generateOriginalSchedule loan).schedule.length =
        (originalFinalState loan).revSchedule.length := by
      have : (generateOriginalSchedule loan).schedule =
          (originalFinalState loan).revSchedule.reverse := rfl
      rw [this, List.length_reverse]
    rw [h1, h2]
    exact runLoop_pn_len _ (fun t => ⟨rfl, origStep_length loan _ _ t⟩)
      ((loan.termYears * 12).toNat) (initState loan) rfl
  · intro hP hr hT hcon
    obtain ⟨_, hbe, _⟩ := originalFinalState_valid loan hP hr hT
    exact absurd hcon.2 (not_lt.2 hbe)

/-- Witness for C1's amended theorem: the no-exhaustion half at a valid
loan, and the ordinary-return half at the exhausting degenerate loan. -/
theorem c1_no_failure_surfaced_witness :
    ¬ capExhaustedOrig ⟨1000, 0, 1, 24288⟩ ∧
      (generateOriginalSchedule ⟨1000, 12, -1, 24288⟩).totalPayments =
        (generateOriginalSchedule ⟨1000, 12, -1, 24288⟩).schedule.length :=
  ⟨(c1_no_failure_surfaced ⟨1000, 0, 1, 24288⟩).2 (by norm_num) (le_refl 0) (le_refl 1),
    (c1_no_failure_surfaced ⟨1000, 12, -1, 24288⟩).1
      (by norm_num [capExhaustedOrig, originalFinalState, initState, runLoop, eps])⟩

/-- Pointwise-equal loop bodies run to equal states. -/
lemma runLoop_congr (step1 step2 : LoopState → LoopState)
    (h : ∀ t, step1 t = step2 t) :
    ∀ (f : ℕ) (s : LoopState), runLoop step1 f s = runLoop step2 f s := by
  intro f
  induction f with
  | zero => intro s; rfl
  | succ n ih =>
      intro s
      rw [runLoop, runLoop]
      split
      · rw [h s]; exact ih _
      · rfl

/-- A loop whose balance is already at or below epsilon does nothing. -/
lemma runLoop_stuck (step : LoopState → LoopState) :
    ∀ (g : ℕ) (s : LoopState), s.balance ≤ eps → runLoop step g s = s := by
  intro g s hs
  cases g with
  | zero => rfl
  | succ n => rw [runLoop, if_neg (not_lt.2 hs)]

/-- Extra fuel beyond an epsilon-exit is never consumed. -/
lemma runLoop_extend (step : LoopState → LoopState) :
    ∀ (f g : ℕ) (s : LoopState), (runLoop step f s).balance ≤ eps →
      runLoop step (f + g) s = runLoop step f s := by
  intro f
  induction f with
  | zero =>
      intro g s hs
      simp only [runLoop] at hs
      rw [Nat.zero_add, runLoop_stuck step g s hs]
      rfl
  | succ n ih =>
      intro g s hs
      have hfg : n + 1 + g = (n + g) + 1 := by omega
      rw [hfg, runLoop, runLoop]
      rw [runLoop] at hs
      split
      · next hb =>
          rw [if_pos hb] at hs
          exact ih g (step s) hs
      · rfl

/-- With every acceleration strategy inactive, one monthly accelerated
iteration is exactly one standard iteration. -/
lemma mStep_zero_opts (loan : LoanData) (d : Option ℤ) (aem : ℤ) (M r : ℚ)
    (s : LoopState) :
    mStep loan ⟨0, false, 0, d, 0, aem⟩ M r s = origStep loan M r s := by
  unfold mStep origStep
  norm_num [mExtraOf, mLumpFires, lumpObjOf]
  by_cases h1 : s.balance < M - s.balance * r
  · rw [if_pos h1, if_pos (by linarith : s.balance + s.balance * r < M)]
  · rw [if_neg h1, if_neg (by intro hcon; apply h1; linarith)]
    ring

/-- C7: with all strategies inactive (extraMonthly = 0, biweekly =
false, lumpSum = 0, annualExtra = 0), `generateAcceleratedSchedule`
returns exactly the same `ScheduleResult` as `generateOriginalSchedule`
— same records field-by-field and same summary totals — for every loan
in the documented domain. -/
theorem c7_zero_options_equiv (loan : LoanData) (d : Option ℤ) (aem : ℤ)
    (hP : 0 < loan.principal) (hr : 0 ≤ loan.annualRate) (hT : 1 ≤ loan.termYears) :
    generateAcceleratedSchedule loan ⟨0, false, 0, d, 0, aem⟩ =
      generateOriginalSchedule loan := by
  have h2n : (loan.termYears * 12 * 2).toNat =
      (loan.termYears * 12).toNat + (loan.termYears * 12).toNat := by omega
  have hble : (runLoop (origStep loan
      (calculateMonthlyPayment loan.principal loan.annualRate loan.termYears)
      (loan.annualRate / 100 / 12)) ((loan.termYears * 12).toNat)
      (initState loan)).balance ≤ eps :=
    (originalFinalState_valid loan hP hr hT).2.1
  have hstate : acceleratedFinalState loan ⟨0, false, 0, d, 0, aem⟩ =
      originalFinalState loan := by
    unfold acceleratedFinalState originalFinalState
    simp only [Bool.false_eq_true, if_false]
    rw [runLoop_congr _ _ (mStep_zero_opts loan d aem
      (calculateMonthlyPayment loan.principal loan.annualRate loan.termYears)
      (loan.annualRate / 100 / 12))]
    rw [h2n, runLoop_extend _ _ _ _ hble]
  unfold generateAcceleratedSchedule generateOriginalSchedule
  rw [hstate]

/-- Witness for C7 at the loan (principal 1000, rate 0, 1 year). -/
theorem c7_zero_options_equiv_witness :
    0 < (1000 : ℚ) ∧ (0 : ℚ) ≤ 0 ∧ (1 : ℤ) ≤ 1 ∧
      generateAcceleratedSchedule ⟨1000, 0, 1, 24288⟩ ⟨0, false, 0, some 24300, 0, 5⟩ =
        generateOriginalSchedule ⟨1000, 0, 1, 24288⟩ :=
  ⟨by norm_num, le_refl 0, le_refl 1,
    c7_zero_options_equiv ⟨1000, 0, 1, 24288⟩ (some 24300) 5 (by norm_num)
      (le_refl 0) (le_refl 1)⟩

/-- A record property preserved by the loop body holds of every record
the loop produces. -/
lemma runLoop_forall_rec (step : LoopState → LoopState) (P : PaymentRecord → Prop)
    (hstep : ∀ t, (∀ rec ∈ t.revSchedule, P rec) → ∀ rec ∈ (step t).revSchedule, P rec) :
    ∀ (f : ℕ) (s : LoopState), (∀ rec ∈ s.revSchedule, P rec) →
      ∀ rec ∈ (runLoop step f s).revSchedule, P rec := by
  intro f
  induction f with
  | zero => intro s hs; simpa [runLoop] using hs
  | succ n ih =>
      intro s hs
      rw [runLoop]
      split
      · exact ih (step s) (hstep s hs)
      · exact hs

/-- Each strategy contributes to the extra only when its amount is
positive, so the monthly extra is non-negative. -/
lemma mExtraOf_nonneg (opts : AccelOptions) (applied : Bool) (ym : ℤ) :
    0 ≤ mExtraOf opts applied ym := by
  unfold mExtraOf
  have h1 : 0 ≤ (if 0 < opts.extraMonthly then opts.extraMonthly else 0) := by
    split
    · linarith
    · exact le_refl 0
  have h2 : 0 ≤ (if mLumpFires opts applied ym then opts.lumpSum else 0) := by
    by_cases hls : 0 < opts.lumpSum
    · split
      · linarith
      · exact le_refl 0
    · have hnone : mLumpFires opts applied ym = false := by
        unfold mLumpFires lumpObjOf
        rw [if_neg hls]
        simp
      rw [hnone]
      simp
  have h3 : 0 ≤ (if 0 < opts.annualExtra ∧ Int.emod ym 12 = opts.annualExtraMonth then
      opts.annualExtra else 0) := by
    split
    · next h => linarith [h.1]
    · exact le_refl 0
  linarith

/-- The bi-weekly extra is non-negative. -/
lemma bwExtraOf_nonneg (opts : AccelOptions) (applied : Bool)
    (prev : Option PaymentRecord) (day : ℤ) :
    0 ≤ bwExtraOf opts applied prev day := by
  unfold bwExtraOf
  have h1 : 0 ≤ (if 0 < opts.extraMonthly then opts.extraMonthly / (217 / 100) else 0) := by
    split
    · positivity
    · exact le_refl 0
  have h2 : 0 ≤ (if bwLumpFires opts applied day then opts.lumpSum else 0) := by
    by_cases hls : 0 < opts.lumpSum
    · split
      · linarith
      · exact le_refl 0
    · have hnone : bwLumpFires opts applied day = false := by
        unfold bwLumpFires lumpObjOf
        rw [if_neg hls]
        simp
      rw [hnone]
      simp
  have h3 : 0 ≤ (if 0 < opts.annualExtra ∧ month0OfDay day = opts.annualExtraMonth ∧
      bwAnnOk opts prev day = true then opts.annualExtra else 0) := by
    split
    · next h => linarith [h.1]
    · exact le_refl 0
  linarith

/-- Standard-loop records satisfy the decomposition exactly. -/
lemma origStep_payment_exact (loan : LoanData) (M r : ℚ) (t : LoopState)
    (ht : ∀ rec ∈ t.revSchedule, rec.payment = rec.principal + rec.interest) :
    ∀ rec ∈ (origStep loan M r t).revSchedule,
      rec.payment = rec.principal + rec.interest := by
  intro rec hrec
  rw [origStep] at hrec
  rcases List.mem_cons.1 hrec with h | h
  · subst h; rfl
  · exact ht rec h

/-- Monthly accelerated records satisfy the decomposition up to twice
the extra applied that period. -/
lemma mStep_payment_bound (loan : LoanData) (opts : AccelOptions) (M r : ℚ) (t : LoopState)
    (ht : ∀ rec ∈ t.revSchedule,
      |rec.payment - (rec.principal + rec.interest)| ≤ 2 * rec.extraPayment) :
    ∀ rec ∈ (mStep loan opts M r t).revSchedule,
      |rec.payment - (rec.principal + rec.interest)| ≤ 2 * rec.extraPayment := by
  intro rec hrec
  simp only [mStep, List.mem_cons] at hrec
  rcases hrec with h | h
  · subst h
    dsimp only
    set x := mExtraOf opts t.lumpApplied (loan.startYM + (t.paymentNumber : ℤ)) with hx0
    have hx : 0 ≤ x := mExtraOf_nonneg _ _ _
    set interest := t.balance * r with hint
    by_cases h1 : t.balance < M - interest + x
    · by_cases h2 : t.balance + interest < M - x
      · rw [if_pos h1, if_pos h2,
          show t.balance + interest - (t.balance - x + interest) = x by ring,
          abs_of_nonneg hx]
        linarith
      · rw [if_pos h1, if_neg h2, abs_of_nonneg (by linarith)]
        linarith
    · have h2 : ¬ (t.balance + interest < M - x) := by
        intro hcon; apply h1; linarith
      rw [if_neg h1, if_neg h2,
        show M - (M - interest + x - x + interest) = 0 by ring, abs_zero]
      linarith
  · exact ht rec h

/-- Bi-weekly accelerated records satisfy the decomposition up to twice
the extra applied that period. -/
lemma bwStep_payment_bound (loan : LoanData) (opts : AccelOptions) (M : ℚ) (t : LoopState)
    (ht : ∀ rec ∈ t.revSchedule,
      |rec.payment - (rec.principal + rec.interest)| ≤ 2 * rec.extraPayment) :
    ∀ rec ∈ (bwStep loan opts M t).revSchedule,
      |rec.payment - (rec.principal + rec.interest)| ≤ 2 * rec.extraPayment := by
  intro rec hrec
  simp only [bwStep, List.mem_cons] at hrec
  rcases hrec with h | h
  · subst h
    dsimp only
    set x := bwExtraOf opts t.lumpApplied t.revSchedule.head?
      (firstDayOfYM loan.startYM + 14 * (t.paymentNumber : ℤ)) with hx0
    have hx : 0 ≤ x := bwExtraOf_nonneg _ _ _ _
    set interest := t.balance * (loan.annualRate / 100 / 365) * 14 with hint
    by_cases h1 : t.balance < M / 2 - interest + x
    · rw [if_pos h1, if_pos h1,
        show t.balance + interest - (t.balance - x + interest) = x by ring,
        abs_of_nonneg hx]
      linarith
    · rw [if_neg h1, if_neg h1,
        show M / 2 - (M / 2 - interest + x - x + interest) = 0 by ring, abs_zero]
      linarith
  · exact ht rec h

/-- C4 (amended): every record of the standard schedule satisfies
`payment = principal + interest` exactly; in the accelerated schedules
(both modes) the discrepancy of every record is bounded by twice that
record's `extraPayment` — in particular the decomposition holds within
epsilon for every record whose period applies no extra, but the final
truncated record of an accelerated run may miss it by up to twice the
extra applied that period. -/
theorem c4_payment_decomposition (loan : LoanData) (opts : AccelOptions) :
    (∀ rec ∈ (generateOriginalSchedule loan).schedule,
      rec.payment = rec.principal + rec.interest) ∧
    (∀ rec ∈ (generateAcceleratedSchedule loan opts).schedule,
      |rec.payment - (rec.principal + rec.interest)| ≤ 2 * rec.extraPayment) := by
  constructor
  · intro rec hrec
    have hmem : rec ∈ (originalFinalState loan).revSchedule := by
      have h1 : (generateOriginalSchedule loan).schedule =
          (originalFinalState loan).revSchedule.reverse := rfl
      rw [h1, List.mem_reverse] at hrec
      exact hrec
    exact runLoop_forall_rec _ _ (origStep_payment_exact loan _ _)
      ((loan.termYears * 12).toNat) (initState loan)
      (by intro r h; simp [initState] at h) rec hmem
  · intro rec hrec
    have hmem : rec ∈ (acceleratedFinalState loan opts).revSchedule := by
      have h1 : (generateAcceleratedSchedule loan opts).schedule =
          (acceleratedFinalState loan opts).revSchedule.reverse := rfl
      rw [h1, List.mem_reverse] at hrec
      exact hrec
    unfold acceleratedFinalState at hmem
    by_cases hbw : opts.biweekly
    · rw [if_pos hbw] at hmem
      exact runLoop_forall_rec _ _ (bwStep_payment_bound loan opts _)
        _ (initState loan) (by intro r h; simp [initState] at h) rec hmem
    · rw [if_neg hbw] at hmem
      exact runLoop_forall_rec _ _ (mStep_payment_bound loan opts _ _)
        _ (initState loan) (by intro r h; simp [initState] at h) rec hmem

/-- C4 counterexample: for the loan (principal 1000, rate 0, 1 year)
with extraMonthly = 500, the second (final, truncated) record has
`payment = 250/3`, `principal = -250/3`, `interest = 0`, so
`|payment - (principal + interest)| = 500/3 > eps`, refuting the claim
that every record (including the final truncated one) satisfies the
decomposition within epsilon. -/
theorem c4_payment_decomposition_counterexample :
    ∃ rec ∈ (generateAcceleratedSchedule ⟨1000, 0, 1, 24288⟩
        ⟨500, false, 0, none, 0, 0⟩).schedule,
      ¬ (|rec.payment - (rec.principal + rec.interest)| ≤ eps) := by
  norm_num [generateAcceleratedSchedule, acceleratedFinalState, initState, runLoop,
    mStep, mExtraOf, mLumpFires, lumpObjOf, calculateMonthlyPayment, eps]
  rw [abs_of_nonneg (by norm_num : (0 : ℚ) ≤ 500 / 3)]
  norm_num

/-- The payment counter never decreases across a run. -/
lemma runLoop_pn_mono (step : LoopState → LoopState)
    (hstep : ∀ t, t.paymentNumber ≤ (step t).paymentNumber) :
    ∀ (f : ℕ) (s : LoopState),
      s.paymentNumber ≤ (runLoop step f s).paymentNumber := by
  intro f
  induction f with
  | zero => intro s; simp [runLoop]
  | succ n ih =>
      intro f
      rw [runLoop]
      split
      · exact le_trans (hstep f) (ih _)
      · exact le_refl _

/-- Cumulative interest never decreases across a run, as long as the
body only adds non-negative interest on non-negative balances. -/
lemma runLoop_ci_mono (step : LoopState → LoopState)
    (hstep : ∀ t, 0 ≤ t.balance →
      t.cumInterest ≤ (step t).cumInterest ∧ 0 ≤ (step t).balance) :
    ∀ (f : ℕ) (s : LoopState), 0 ≤ s.balance →
      s.cumInterest ≤ (runLoop step f s).cumInterest := by
  intro f
  induction f with
  | zero => intro s _; simp [runLoop]
  | succ n ih =>
      intro s hs
      rw [runLoop]
      split
      · exact le_trans (hstep s hs).1 (ih _ (hstep s hs).2)
      · exact le_refl _

/-- Closed form of the monthly accelerated balance update: the new
balance is `max 0 (balance * (1 + r) - payment - extra)`. -/
lemma mStep_balance (loan : LoanData) (opts : AccelOptions) (M r : ℚ) (t : LoopState) :
    (mStep loan opts M r t).balance =
      max 0 (t.balance * (1 + r) - M -
        mExtraOf opts t.lumpApplied (loan.startYM + (t.paymentNumber : ℤ))) := by
  simp only [mStep]
  split
  · next h =>
      rw [max_eq_left (by linarith)]
      ring
  · next h =>
      rw [max_eq_right (by linarith)]
      ring

lemma mStep_ci (loan : LoanData) (opts : AccelOptions) (M r : ℚ) (t : LoopState) :
    (mStep loan opts M r t).cumInterest = t.cumInterest + t.balance * r := rfl

lemma mStep_pn (loan : LoanData) (opts : AccelOptions) (M r : ℚ) (t : LoopState) :
    (mStep loan opts M r t).paymentNumber = t.paymentNumber + 1 := rfl

lemma mStep_la (loan : LoanData) (opts : AccelOptions) (M r : ℚ) (t : LoopState) :
    (mStep loan opts M r t).lumpApplied =
      (t.lumpApplied ||
        mLumpFires opts t.lumpApplied (loan.startYM + (t.paymentNumber : ℤ))) := rfl

/-- The monthly step keeps the balance non-negative. -/
lemma mStep_balance_nonneg (loan : LoanData) (opts : AccelOptions) (M r : ℚ)
    (t : LoopState) : 0 ≤ (mStep loan opts M r t).balance := by
  rw [mStep_balance]
  exact le_max_left _ _

/-- The per-period extra is pointwise monotone in `extraMonthly` (the
lump-sum and annual components do not read `extraMonthly`). -/
lemma mExtraOf_mono_extraMonthly (opts : AccelOptions) (e1 e2 : ℚ) (he : e1 ≤ e2)
    (applied : Bool) (ym : ℤ) :
    mExtraOf { opts with extraMonthly := e1 } applied ym ≤
      mExtraOf { opts with extraMonthly := e2 } applied ym := by
  unfold mExtraOf
  have hfire : mLumpFires { opts with extraMonthly := e1 } applied ym =
      mLumpFires { opts with extraMonthly := e2 } applied ym := rfl
  rw [hfire]
  have h1 : (if 0 < e1 then e1 else 0) ≤ (if 0 < e2 then e2 else 0) := by
    by_cases ha : 0 < e1
    · rw [if_pos ha, if_pos (by linarith)]; exact he
    · rw [if_neg ha]
      by_cases hb : 0 < e2
      · rw [if_pos hb]; linarith
      · rw [if_neg hb]

  simp only [AccelOptions.lumpSum, AccelOptions.annualExtra, AccelOptions.annualExtraMonth]
  linarith

/-- Pointwise domination: running the monthly accelerated loop with a
larger extra from a smaller balance never needs more periods and never
accrues more interest. -/
lemma mLoop_dominates (loan : LoanData) (opts : AccelOptions) (e1 e2 : ℚ) (M r : ℚ)
    (hr : 0 ≤ r) (he : e1 ≤ e2) :
    ∀ (f : ℕ) (s1 s2 : LoopState),
      s2.balance ≤ s1.balance → 0 ≤ s2.balance →
      s2.cumInterest ≤ s1.cumInterest →
      s2.paymentNumber = s1.paymentNumber →
      s2.lumpApplied = s1.lumpApplied →
      (runLoop (mStep loan { opts with extraMonthly := e2 } M r) f s2).paymentNumber ≤
          (runLoop (mStep loan { opts with extraMonthly := e1 } M r) f s1).paymentNumber ∧
        (runLoop (mStep loan { opts with extraMonthly := e2 } M r) f s2).cumInterest ≤
          (runLoop (mStep loan { opts with extraMonthly := e1 } M r) f s1).cumInterest := by
  intro f
  induction f with
  | zero =>
      intro s1 s2 hb h0 hci hpn _
      simp only [runLoop]
      exact ⟨le_of_eq hpn, hci⟩
  | succ n ih =>
      intro s1 s2 hb h0 hci hpn hla
      rw [runLoop, runLoop]
      by_cases hb2 : eps < s2.balance
      · have hb1 : eps < s1.balance := lt_of_lt_of_le hb2 hb
        rw [if_pos hb2, if_pos hb1]
        apply ih
        · rw [mStep_balance, mStep_balance, hpn, hla]
          apply max_le_max (le_refl 0)
          have hx := mExtraOf_mono_extraMonthly opts e1 e2 he s1.lumpApplied
            (loan.startYM + (s1.paymentNumber : ℤ))
          have hbb : s2.balance * (1 + r) ≤ s1.balance * (1 + r) :=
            mul_le_mul_of_nonneg_right hb (by linarith)
          linarith
        · exact mStep_balance_nonneg _ _ _ _ _
        · rw [mStep_ci, mStep_ci]
          have : s2.balance * r ≤ s1.balance * r :=
            mul_le_mul_of_nonneg_right hb hr
          linarith
        · rw [mStep_pn, mStep_pn, hpn]
        · rw [mStep_la, mStep_la, hla, hpn]
          rfl
      · rw [if_neg hb2]
        by_cases hb1 : eps < s1.balance
        · rw [if_pos hb1]
          constructor
          · calc s2.paymentNumber = s1.paymentNumber := hpn
              _ ≤ (mStep loan { opts with extraMonthly := e1 } M r s1).paymentNumber := by
                  rw [mStep_pn]; omega
              _ ≤ _ := runLoop_pn_mono _ (fun t => by rw [mStep_pn]; omega) _ _
          · calc s2.cumInterest ≤ s1.cumInterest := hci
              _ ≤ (mStep loan { opts with extraMonthly := e1 } M r s1).cumInterest := by
                  rw [mStep_ci]
                  have : 0 ≤ s1.balance * r :=
                    mul_nonneg (le_trans h0 hb) hr
                  linarith
              _ ≤ _ := runLoop_ci_mono _
                  (fun t ht => ⟨by rw [mStep_ci]; nlinarith, mStep_balance_nonneg _ _ _ _ _⟩)
                  _ _ (mStep_balance_nonneg _ _ _ _ _)
        · rw [if_neg hb1]
          exact ⟨le_of_eq hpn, hci⟩

/-- C6: for a fixed loan (documented domain) and otherwise-fixed options
with biweekly = false, a larger `extraMonthly` never increases the total
payment count nor the total interest. -/
theorem c6_extra_monthly_monotone (loan : LoanData) (opts : AccelOptions) (e1 e2 : ℚ)
    (hP : 0 ≤ loan.principal) (hr : 0 ≤ loan.annualRate) (he : e1 ≤ e2)
    (hbw : opts.biweekly = false) :
    (generateAcceleratedSchedule loan { opts with extraMonthly := e2 }).totalPayments ≤
        (generateAcceleratedSchedule loan { opts with extraMonthly := e1 }).totalPayments ∧
      (generateAcceleratedSchedule loan { opts with extraMonthly := e2 }).totalInterest ≤
        (generateAcceleratedSchedule loan { opts with extraMonthly := e1 }).totalInterest := by
  have hr12 : 0 ≤ loan.annualRate / 100 / 12 := by positivity
  have hdom := mLoop_dominates loan opts e1 e2
    (calculateMonthlyPayment loan.principal loan.annualRate loan.termYears)
    (loan.annualRate / 100 / 12) hr12 he
    ((loan.termYears * 12 * 2).toNat) (initState loan) (initState loan)
    (le_refl _) (by simpa [initState] using hP) (le_refl _) rfl rfl
  have h1 : ∀ e : ℚ, generateAcceleratedSchedule loan { opts with extraMonthly := e } =
      { schedule := (runLoop (mStep loan { opts with extraMonthly := e }
          (calculateMonthlyPayment loan.principal loan.annualRate loan.termYears)
          (loan.annualRate / 100 / 12)) ((loan.termYears * 12 * 2).toNat)
          (initState loan)).revSchedule.reverse,
        monthlyPayment :=
          calculateMonthlyPayment loan.principal loan.annualRate loan.termYears,
        totalInterest := (runLoop (mStep loan { opts with extraMonthly := e }
          (calculateMonthlyPayment loan.principal loan.annualRate loan.termYears)
          (loan.annualRate / 100 / 12)) ((loan.termYears * 12 * 2).toNat)
          (initState loan)).cumInterest,
        totalPayments := (runLoop (mStep loan { opts with extraMonthly := e }
          (calculateMonthlyPayment loan.principal loan.annualRate loan.termYears)
          (loan.annualRate / 100 / 12)) ((loan.termYears * 12 * 2).toNat)
          (initState loan)).paymentNumber,
        payoffYM := (((runLoop (mStep loan { opts with extraMonthly := e }
          (calculateMonthlyPayment loan.principal loan.annualRate loan.termYears)
          (loan.annualRate / 100 / 12)) ((loan.termYears * 12 * 2).toNat)
          (initState loan)).revSchedule.head?).map (fun rec => rec.ym)).getD
          loan.startYM } := by
    intro e
    unfold generateAcceleratedSchedule acceleratedFinalState
    have hb : ({ opts with extraMonthly := e } : AccelOptions).biweekly = false := hbw
    rw [hb]
    simp only [Bool.false_eq_true, if_false]
  rw [h1 e1, h1 e2]
  exact hdom

/-- Witness for C6 at the loan (principal 1000, rate 0, 1 year) with
extras 0 ≤ 200. -/
theorem c6_extra_monthly_monotone_witness :
    (0 : ℚ) ≤ 1000 ∧ (0 : ℚ) ≤ 0 ∧ (0 : ℚ) ≤ 200 ∧
      (generateAcceleratedSchedule ⟨1000, 0, 1, 24288⟩
          ⟨200, false, 0, none, 0, 0⟩).totalPayments ≤
        (generateAcceleratedSchedule ⟨1000, 0, 1, 24288⟩
          ⟨0, false, 0, none, 0, 0⟩).totalPayments :=
  ⟨by norm_num, le_refl 0, by norm_num,
    (c6_extra_monthly_monotone ⟨1000, 0, 1, 24288⟩ ⟨0, false, 0, none, 0, 0⟩ 0 200
      (by norm_num) (le_refl 0) (by norm_num) rfl).1⟩

/-- Any state property preserved by the body is preserved by the loop. -/
lemma runLoop_preserves (step : LoopState → LoopState) (P : LoopState → Prop)
    (hstep : ∀ t, P t → P (step t)) :
    ∀ (f : ℕ) (s : LoopState), P s → P (runLoop step f s) := by
  intro f
  induction f with
  | zero => intro s hs; simpa [runLoop] using hs
  | succ n ih =>
      intro s hs
      rw [runLoop]
      split
      · exact ih _ (hstep s hs)
      · exact hs

/-- The first 1-based monthly period whose month index is at or past the
lump-sum month. -/
def mLumpIndex (startYM lym : ℤ) : ℤ := max 1 (lym - startYM + 1)

/-- `mLumpIndex` is exactly the threshold of the source's
`paymentMonth >= lumpSumMonth` comparison. -/
lemma mLumpIndex_spec (startYM lym j : ℤ) (hj : 1 ≤ j) :
    mLumpIndex startYM lym ≤ j ↔ lym ≤ startYM + (j - 1) := by
  unfold mLumpIndex
  rw [max_le_iff]
  omega

/-- The non-lump part of the monthly extra at 1-based period `j`. -/
def mBaseExtra (opts : AccelOptions) (startYM j : ℤ) : ℚ :=
  (if 0 < opts.extraMonthly then opts.extraMonthly else 0) +
    (if 0 < opts.annualExtra ∧ Int.emod (startYM + (j - 1)) 12 = opts.annualExtraMonth then
      opts.annualExtra else 0)

/-- Invariant characterizing the monthly accelerated ledger when the
lump sum is active: counters agree, the consumed flag is set exactly
once the lump index is reached, and every record's `extraPayment` is the
non-lump extra plus the lump exactly at period `mLumpIndex`. -/
def MInv (loan : LoanData) (opts : AccelOptions) (lym : ℤ) (s : LoopState) : Prop :=
  s.paymentNumber = s.revSchedule.length ∧
    (s.lumpApplied = true ↔ mLumpIndex loan.startYM lym ≤ (s.paymentNumber : ℤ)) ∧
    ∀ i (h : i < s.revSchedule.length),
      (s.revSchedule.get ⟨i, h⟩).paymentNumber = s.paymentNumber - i ∧
        (s.revSchedule.get ⟨i, h⟩).ym =
          loan.startYM + ((s.paymentNumber : ℤ) - (i : ℤ) - 1) ∧
        (s.revSchedule.get ⟨i, h⟩).extraPayment =
          mBaseExtra opts loan.startYM ((s.paymentNumber : ℤ) - (i : ℤ)) +
            (if ((s.paymentNumber : ℤ) - (i : ℤ)) = mLumpIndex loan.startYM lym then
              opts.lumpSum else 0)

/-- Closed form of the extra assembled in monthly period `k + 1`, given
the consumed-flag invariant at `k`. -/
lemma mExtra_closed (opts : AccelOptions) (lym : ℤ) (hobj : lumpObjOf opts = some lym)
    (startYM : ℤ) (la : Bool) (k : ℤ) (hk : 0 ≤ k)
    (hla : la = true ↔ mLumpIndex startYM lym ≤ k) :
    mExtraOf opts la (startYM + k) =
      mBaseExtra opts startYM (k + 1) +
        (if k + 1 = mLumpIndex startYM lym then opts.lumpSum else 0) := by
  have hspec : mLumpIndex startYM lym ≤ k + 1 ↔ lym ≤ startYM + k := by
    have := mLumpIndex_spec startYM lym (k + 1) (by omega)
    rwa [show k + 1 - 1 = k from by ring] at this
  have hlump : (if mLumpFires opts la (startYM + k) then opts.lumpSum else 0) =
      (if k + 1 = mLumpIndex startYM lym then opts.lumpSum else 0) := by
    unfold mLumpFires
    rw [hobj]
    cases hb : la with
    | true =>
        have hge : mLumpIndex startYM lym ≤ k := hla.1 hb
        have hnc : ¬ (k + 1 = mLumpIndex startYM lym) := by omega
        rw [if_neg hnc]
        simp
    | false =>
        have hnot : ¬ mLumpIndex startYM lym ≤ k := by
          intro hc
          have := hla.2 hc
          rw [hb] at this
          exact Bool.false_ne_true this
        simp only [Bool.not_false, Bool.true_and, decide_eq_true_eq]
        by_cases hle : lym ≤ startYM + k
        · have hc : k + 1 = mLumpIndex startYM lym := by omega
          rw [if_pos hle, if_pos hc]
        · have hnc : ¬ (k + 1 = mLumpIndex startYM lym) := by omega
          rw [if_neg hle, if_neg hnc]
  unfold mExtraOf mBaseExtra
  rw [show startYM + (k + 1 - 1) = startYM + k from by ring, hlump]
  ring

/-- One monthly step preserves the lump-sum characterization. -/
lemma mStep_preserves_MInv (loan : LoanData) (opts : AccelOptions) (lym : ℤ) (M r : ℚ)
    (hobj : lumpObjOf opts = some lym) (s : LoopState) (hs : MInv loan opts lym s) :
    MInv loan opts lym (mStep loan opts M r s) := by
  obtain ⟨hlen, hflag, hrec⟩ := hs
  have hfire : mLumpFires opts s.lumpApplied (loan.startYM + (s.paymentNumber : ℤ)) =
      (!s.lumpApplied && decide (lym ≤ loan.startYM + (s.paymentNumber : ℤ))) := by
    unfold mLumpFires
    rw [hobj]
  have hidx : lym ≤ loan.startYM + (s.paymentNumber : ℤ) ↔
      mLumpIndex loan.startYM lym ≤ (s.paymentNumber : ℤ) + 1 := by
    have := mLumpIndex_spec loan.startYM lym ((s.paymentNumber : ℤ) + 1) (by omega)
    constructor
    · intro h; exact this.2 (by omega)
    · intro h; have := this.1 h; omega
  refine ⟨?_, ?_, ?_⟩
  · rw [mStep_pn, mStep_length, hlen]
  · rw [mStep_la, mStep_pn, hfire]
    cases hla : s.lumpApplied with
    | true =>
        simp only [Bool.true_or, true_iff]
        have := hflag.1 hla
        push_cast
        omega
    | false =>
        simp only [Bool.false_or, Bool.not_false, Bool.true_and, decide_eq_true_eq]
        push_cast
        exact hidx
  · intro i h
    cases i with
    | zero =>
        refine ⟨rfl, ?_, ?_⟩
        · show loan.startYM + (s.paymentNumber : ℤ) = _
          rw [mStep_pn]
          push_cast
          ring
        · show mExtraOf opts s.lumpApplied (loan.startYM + (s.paymentNumber : ℤ)) = _
          rw [mStep_pn]
          push_cast [sub_zero]
          exact mExtra_closed opts lym hobj loan.startYM s.lumpApplied
            (s.paymentNumber : ℤ) (Int.natCast_nonneg _) hflag
    | succ i =>
        have hlt : i < s.revSchedule.length := by
          have := h
          rw [mStep_length] at this
          omega
        obtain ⟨h1, h2, h3⟩ := hrec i hlt
        have hget : (mStep loan opts M r s).revSchedule.get ⟨i + 1, h⟩ =
            s.revSchedule.get ⟨i, hlt⟩ := rfl
        rw [hget, mStep_pn]
        refine ⟨by omega, ?_, ?_⟩
        · rw [h2]
          have : ((s.paymentNumber + 1 : ℕ) : ℤ) - ((i + 1 : ℕ) : ℤ) =
              (s.paymentNumber : ℤ) - (i : ℤ) := by push_cast; ring
          rw [this]
        · rw [h3]
          have : ((s.paymentNumber + 1 : ℕ) : ℤ) - ((i + 1 : ℕ) : ℤ) =
              (s.paymentNumber : ℤ) - (i : ℤ) := by push_cast; ring
          rw [this]

/-- Day of the bi-weekly period with 0-based index `k`. -/
def bwDayOf (startDay k : ℤ) : ℤ := startDay + 14 * k

/-- The first 0-based bi-weekly period whose date is at or past
`lumpDay`. -/
def bwLumpIndex0 (startDay lumpDay : ℤ) : ℤ :=
  max 0 ((lumpDay - startDay + 13).fdiv 14)

/-- `bwLumpIndex0` is exactly the threshold of the source's
`paymentDate >= lumpSumDateObj` comparison. -/
lemma bwLumpIndex0_spec (startDay d k : ℤ) (hk : 0 ≤ k) :
    bwLumpIndex0 startDay d ≤ k ↔ d ≤ bwDayOf startDay k := by
  unfold bwLumpIndex0 bwDayOf
  rw [max_le_iff, Int.fdiv_eq_ediv _ (by norm_num)]
  omega

/-- The lump contribution of the bi-weekly period with 0-based index
`k`: the lump sum exactly at the first eligible period, when active. -/
def bwLumpPart0 (opts : AccelOptions) (startDay k : ℤ) : ℚ :=
  match lumpObjOf opts with
  | none => 0
  | some lym => if k = bwLumpIndex0 startDay (firstDayOfYM lym) then opts.lumpSum else 0

/-- The annual-extra contribution of the bi-weekly period with 0-based
index `k` (month match plus the previous-period de-duplication). -/
def bwAnnPart0 (opts : AccelOptions) (startDay k : ℤ) : ℚ :=
  if 0 < opts.annualExtra ∧ month0OfDay (bwDayOf startDay k) = opts.annualExtraMonth ∧
      (k ≤ 0 ∨ month0OfDay (bwDayOf startDay (k - 1)) ≠ opts.annualExtraMonth ∨
        yearOfDay (bwDayOf startDay (k - 1)) ≠ yearOfDay (bwDayOf startDay k)) then
    opts.annualExtra else 0

/-- Closed form of the whole bi-weekly extra at 0-based period `k`. -/
def bwExtraClosed0 (opts : AccelOptions) (startDay k : ℤ) : ℚ :=
  (if 0 < opts.extraMonthly then opts.extraMonthly / (217 / 100) else 0) +
    bwLumpPart0 opts startDay k + bwAnnPart0 opts startDay k

/-- What the consumed flag means after `n` bi-weekly periods: the lump
is active and its first eligible period has already been stepped. -/
def bwFlagSpec0 (opts : AccelOptions) (startDay n : ℤ) : Prop :=
  match lumpObjOf opts with
  | none => False
  | some lym => bwLumpIndex0 startDay (firstDayOfYM lym) < n

/-- Closed form of the bi-weekly lump check at period `k`, given the
flag invariant. -/
lemma bwLumpFires_closed (opts : AccelOptions) (startDay : ℤ) (la : Bool) (k : ℤ)
    (hk : 0 ≤ k) (hla : la = true ↔ bwFlagSpec0 opts startDay k) :
    (if bwLumpFires opts la (bwDayOf startDay k) then opts.lumpSum else 0) =
      bwLumpPart0 opts startDay k := by
  unfold bwFlagSpec0 at hla
  unfold bwLumpFires bwLumpPart0
  cases hobj : lumpObjOf opts with
  | none => simp
  | some lym =>
      rw [hobj] at hla
      dsimp only at hla ⊢
      have hspec := bwLumpIndex0_spec startDay (firstDayOfYM lym) k hk
      cases hb : la with
      | true =>
          have hlt : bwLumpIndex0 startDay (firstDayOfYM lym) < k := hla.1 hb
          have hnc : ¬ (k = bwLumpIndex0 startDay (firstDayOfYM lym)) := by omega
          rw [if_neg hnc]
          simp
      | false =>
          have hnot : ¬ (bwLumpIndex0 startDay (firstDayOfYM lym) < k) := by
            intro hc
            have := hla.2 hc
            rw [hb] at this
            exact Bool.false_ne_true this
          simp only [Bool.not_false, Bool.true_and, decide_eq_true_eq]
          by_cases hle : firstDayOfYM lym ≤ bwDayOf startDay k
          · have hc : k = bwLumpIndex0 startDay (firstDayOfYM lym) := by
              have := hspec.2 hle
              omega
            rw [if_pos hle, if_pos hc]
          · have hnc : ¬ (k = bwLumpIndex0 startDay (firstDayOfYM lym)) := by
              intro hc
              exact hle (hspec.1 (by omega))
            rw [if_neg hle, if_neg hnc]

/-- Closed form of the bi-weekly annual-extra check at period `k`, given
what the previous appended record is. -/
lemma bwAnn_closed (opts : AccelOptions) (startDay : ℤ) (prev : Option PaymentRecord)
    (k : ℤ)
    (hprev : (k = 0 ∧ prev = none) ∨
      (1 ≤ k ∧ ∃ rec, prev = some rec ∧ rec.day = bwDayOf startDay (k - 1))) :
    (if 0 < opts.annualExtra ∧ month0OfDay (bwDayOf startDay k) = opts.annualExtraMonth ∧
        bwAnnOk opts prev (bwDayOf startDay k) = true then opts.annualExtra else 0) =
      bwAnnPart0 opts startDay k := by
  unfold bwAnnPart0
  apply if_congr ?_ rfl rfl
  rcases hprev with ⟨hk0, hpn⟩ | ⟨hk1, rec, hps, hday⟩
  · subst hpn
    subst hk0
    unfold bwAnnOk
    dsimp only
    constructor
    · rintro ⟨a, b, _⟩
      exact ⟨a, b, Or.inl (by omega)⟩
    · rintro ⟨a, b, _⟩
      exact ⟨a, b, rfl⟩
  · subst hps
    unfold bwAnnOk
    dsimp only
    rw [hday]
    simp only [decide_eq_true_eq]
    constructor
    · rintro ⟨a, b, c⟩
      exact ⟨a, b, Or.inr c⟩
    · rintro ⟨a, b, c⟩
      refine ⟨a, b, ?_⟩
      rcases c with c | c
      · omega
      · exact c

/-- Closed form of the whole bi-weekly extra at period `k`. -/
lemma bwExtraOf_closed (opts : AccelOptions) (startDay : ℤ) (la : Bool)
    (prev : Option PaymentRecord) (k : ℤ) (hk : 0 ≤ k)
    (hla : la = true ↔ bwFlagSpec0 opts startDay k)
    (hprev : (k = 0 ∧ prev = none) ∨
      (1 ≤ k ∧ ∃ rec, prev = some rec ∧ rec.day = bwDayOf startDay (k - 1))) :
    bwExtraOf opts la prev (bwDayOf startDay k) = bwExtraClosed0 opts startDay k := by
  unfold bwExtraOf bwExtraClosed0
  rw [bwLumpFires_closed opts startDay la k hk hla, bwAnn_closed opts startDay prev k hprev]

/-- Flag update across one bi-weekly period, in closed form. -/
lemma bwFlag_step (opts : AccelOptions) (startDay : ℤ) (la : Bool) (k : ℤ) (hk : 0 ≤ k)
    (hla : la = true ↔ bwFlagSpec0 opts startDay k) :
    (la || bwLumpFires opts la (bwDayOf startDay k)) = true ↔
      bwFlagSpec0 opts startDay (k + 1) := by
  unfold bwFlagSpec0 at hla ⊢
  unfold bwLumpFires
  cases hobj : lumpObjOf opts with
  | none =>
      rw [hobj] at hla
      dsimp only at hla ⊢
      simpa using hla
  | some lym =>
      rw [hobj] at hla
      dsimp only at hla ⊢
      have hspec := bwLumpIndex0_spec startDay (firstDayOfYM lym) k hk
      cases hb : la with
      | true =>
          rw [hb] at hla
          have := hla.1 rfl
          simp only [Bool.true_or, true_iff]
          omega
      | false =>
          rw [hb] at hla
          have hnot : ¬ (bwLumpIndex0 startDay (firstDayOfYM lym) < k) := by
            intro hc
            exact Bool.false_ne_true (hla.2 hc)
          simp only [Bool.false_or, Bool.not_false, Bool.true_and, decide_eq_true_eq]
          omega

/-- A truncated-or-not principal subtraction never overdraws. -/
lemma sub_ite_min_nonneg (b p : ℚ) : 0 ≤ b - (if b < p then b else p) := by
  split
  · linarith
  · next h => linarith [not_lt.1 h]

/-- Invariant characterizing the bi-weekly ledger: counters agree, the
consumed flag matches its closed form, the balance of the newest record
mirrors the loop balance, and all record fields follow the closed forms
(14-day date stepping, extra decomposition, half-payment except possibly
at the final truncated period, and the simple-daily interest convention
applied to the previous period's balance). -/
def BwInv (loan : LoanData) (opts : AccelOptions) (M : ℚ) (s : LoopState) : Prop :=
  s.paymentNumber = s.revSchedule.length ∧
    (s.lumpApplied = true ↔
      bwFlagSpec0 opts (firstDayOfYM loan.startYM) (s.paymentNumber : ℤ)) ∧
    (s.revSchedule = [] → s.balance = loan.principal) ∧
    (∀ rec, s.revSchedule.head? = some rec → rec.balance = s.balance) ∧
    ∀ i (h : i < s.revSchedule.length),
      (s.revSchedule.get ⟨i, h⟩).paymentNumber = s.paymentNumber - i ∧
        (s.revSchedule.get ⟨i, h⟩).day =
          bwDayOf (firstDayOfYM loan.startYM) ((s.paymentNumber : ℤ) - (i : ℤ) - 1) ∧
        (s.revSchedule.get ⟨i, h⟩).ym =
          ymOfDay (bwDayOf (firstDayOfYM loan.startYM)
            ((s.paymentNumber : ℤ) - (i : ℤ) - 1)) ∧
        (s.revSchedule.get ⟨i, h⟩).extraPayment =
          bwExtraClosed0 opts (firstDayOfYM loan.startYM)
            ((s.paymentNumber : ℤ) - (i : ℤ) - 1) ∧
        ((s.revSchedule.get ⟨i, h⟩).payment = M / 2 ∨
          (s.revSchedule.get ⟨i, h⟩).balance ≤ eps) ∧
        (s.revSchedule.get ⟨i, h⟩).interest =
          (if h2 : i + 1 < s.revSchedule.length then
            (s.revSchedule.get ⟨i + 1, h2⟩).balance
           else loan.principal) * (loan.annualRate / 100 / 365) * 14

/-- One bi-weekly step preserves the ledger characterization. -/
lemma bwStep_preserves_BwInv (loan : LoanData) (opts : AccelOptions) (M : ℚ)
    (s : LoopState) (hs : BwInv loan opts M s) : BwInv loan opts M (bwStep loan opts M s) := by
  obtain ⟨hlen, hflag, hemp, hhead, hrec⟩ := hs
  have hlen1 : (bwStep loan opts M s).revSchedule.length = s.revSchedule.length + 1 := rfl
  have hprev : ((s.paymentNumber : ℤ) = 0 ∧ s.revSchedule.head? = none) ∨
      (1 ≤ (s.paymentNumber : ℤ) ∧ ∃ rec, s.revSchedule.head? = some rec ∧
        rec.day = bwDayOf (firstDayOfYM loan.startYM) ((s.paymentNumber : ℤ) - 1)) := by
    cases hsr : s.revSchedule with
    | nil =>
        left
        constructor
        · rw [hlen, hsr]
          rfl
        · rfl
    | cons a tl =>
        right
        have hln : s.revSchedule.length = tl.length + 1 := by rw [hsr]; rfl
        have hpn1 : 1 ≤ s.paymentNumber := by omega
        have h0 : 0 < s.revSchedule.length := by omega
        have hga : s.revSchedule.get ⟨0, h0⟩ = a := by
          rw [List.get_of_eq hsr]
          rfl
        have hd := (hrec 0 h0).2.1
        rw [hga] at hd
        push_cast [sub_zero] at hd
        refine ⟨by exact_mod_cast hpn1, a, by rfl, hd⟩
  have hk0 : (0 : ℤ) ≤ (s.paymentNumber : ℤ) := Int.natCast_nonneg _
  have hextra : bwExtraOf opts s.lumpApplied s.revSchedule.head?
      (firstDayOfYM loan.startYM + 14 * (s.paymentNumber : ℤ)) =
      bwExtraClosed0 opts (firstDayOfYM loan.startYM) (s.paymentNumber : ℤ) :=
    bwExtraOf_closed opts (firstDayOfYM loan.startYM) s.lumpApplied
      s.revSchedule.head? (s.paymentNumber : ℤ) hk0 hflag hprev
  refine ⟨?_, ?_, ?_, ?_, ?_⟩
  · show s.paymentNumber + 1 = s.revSchedule.length + 1
    omega
  · show (s.lumpApplied || bwLumpFires opts s.lumpApplied
        (firstDayOfYM loan.startYM + 14 * (s.paymentNumber : ℤ))) = true ↔
      bwFlagSpec0 opts (firstDayOfYM loan.startYM) ((s.paymentNumber + 1 : ℕ) : ℤ)
    rw [show ((s.paymentNumber + 1 : ℕ) : ℤ) = (s.paymentNumber : ℤ) + 1 from by
      push_cast; ring]
    exact bwFlag_step opts (firstDayOfYM loan.startYM) s.lumpApplied
      (s.paymentNumber : ℤ) hk0 hflag
  · intro hcon
    exact absurd hcon (List.cons_ne_nil _ _)
  · intro rec hr
    simp only [bwStep, List.head?_cons, Option.some.injEq] at hr
    subst hr
    exact max_eq_right (sub_ite_min_nonneg _ _)
  · intro i h
    cases i with
    | zero =>
        refine ⟨rfl, ?_, ?_, ?_, ?_, ?_⟩
        · show firstDayOfYM loan.startYM + 14 * (s.paymentNumber : ℤ) =
            bwDayOf (firstDayOfYM loan.startYM)
              (((s.paymentNumber + 1 : ℕ) : ℤ) - ((0 : ℕ) : ℤ) - 1)
          unfold bwDayOf
          push_cast
          ring
        · show ymOfDay (firstDayOfYM loan.startYM + 14 * (s.paymentNumber : ℤ)) =
            ymOfDay (bwDayOf (firstDayOfYM loan.startYM)
              (((s.paymentNumber + 1 : ℕ) : ℤ) - ((0 : ℕ) : ℤ) - 1))
          congr 1
          unfold bwDayOf
          push_cast
          ring
        · show bwExtraOf opts s.lumpApplied s.revSchedule.head?
              (firstDayOfYM loan.startYM + 14 * (s.paymentNumber : ℤ)) =
            bwExtraClosed0 opts (firstDayOfYM loan.startYM)
              (((s.paymentNumber + 1 : ℕ) : ℤ) - ((0 : ℕ) : ℤ) - 1)
          rw [hextra]
          congr 1
          push_cast
          ring
        · by_cases ht : s.balance < M / 2 - s.balance * (loan.annualRate / 100 / 365) * 14 +
              bwExtraOf opts s.lumpApplied s.revSchedule.head?
                (firstDayOfYM loan.startYM + 14 * (s.paymentNumber : ℤ))
          · right
            show max 0 (s.balance -
              (if s.balance < M / 2 - s.balance * (loan.annualRate / 100 / 365) * 14 +
                  bwExtraOf opts s.lumpApplied s.revSchedule.head?
                    (firstDayOfYM loan.startYM + 14 * (s.paymentNumber : ℤ)) then s.balance
                else M / 2 - s.balance * (loan.annualRate / 100 / 365) * 14 +
                  bwExtraOf opts s.lumpApplied s.revSchedule.head?
                    (firstDayOfYM loan.startYM + 14 * (s.paymentNumber : ℤ)))) ≤ eps
            rw [if_pos ht, sub_self]
            norm_num [eps]
          · left
            show (if s.balance < M / 2 - s.balance * (loan.annualRate / 100 / 365) * 14 +
                  bwExtraOf opts s.lumpApplied s.revSchedule.head?
                    (firstDayOfYM loan.startYM + 14 * (s.paymentNumber : ℤ)) then
                (if s.balance < M / 2 - s.balance * (loan.annualRate / 100 / 365) * 14 +
                    bwExtraOf opts s.lumpApplied s.revSchedule.head?
                      (firstDayOfYM loan.startYM + 14 * (s.paymentNumber : ℤ)) then s.balance
                  else M / 2 - s.balance * (loan.annualRate / 100 / 365) * 14 +
                    bwExtraOf opts s.lumpApplied s.revSchedule.head?
                      (firstDayOfYM loan.startYM + 14 * (s.paymentNumber : ℤ))) +
                  s.balance * (loan.annualRate / 100 / 365) * 14
              else M / 2) = M / 2
            rw [if_neg ht]
        · have hr0 : ((bwStep loan opts M s).revSchedule.get ⟨0, h⟩).interest =
              s.balance * (loan.annualRate / 100 / 365) * 14 := rfl
          rw [hr0]
          cases hsr : s.revSchedule with
          | nil =>
              have hc : ¬ (0 + 1 < (bwStep loan opts M s).revSchedule.length) := by
                rw [hlen1, hsr]
                simp
              rw [dif_neg hc, hemp hsr]
          | cons a tl =>
              have hln : s.revSchedule.length = tl.length + 1 := by rw [hsr]; rfl
              have h0 : 0 < s.revSchedule.length := by omega
              have hc : 0 + 1 < (bwStep loan opts M s).revSchedule.length := by
                rw [hlen1]
                omega
              have hga : s.revSchedule.get ⟨0, h0⟩ = a := by
                rw [List.get_of_eq hsr]
                rfl
              have hg1 : (bwStep loan opts M s).revSchedule.get ⟨0 + 1, hc⟩ =
                  s.revSchedule.get ⟨0, h0⟩ := rfl
              rw [dif_pos hc, hg1, hga, hhead a (by rw [hsr]; rfl)]
    | succ i =>
        have hlt : i < s.revSchedule.length := by
          rw [hlen1] at h
          omega
        obtain ⟨o1, o2, o3, o4, o5, o6⟩ := hrec i hlt
        have hcast : ((s.paymentNumber + 1 : ℕ) : ℤ) - ((i + 1 : ℕ) : ℤ) - 1 =
            (s.paymentNumber : ℤ) - (i : ℤ) - 1 := by push_cast; ring
        have hget : (bwStep loan opts M s).revSchedule.get ⟨i + 1, h⟩ =
            s.revSchedule.get ⟨i, hlt⟩ := rfl
        refine ⟨?_, ?_, ?_, ?_, ?_, ?_⟩
        · rw [hget, o1]
          show s.paymentNumber - i = s.paymentNumber + 1 - (i + 1)
          omega
        · rw [hget, o2]
          rw [show ((bwStep loan opts M s).paymentNumber : ℤ) =
            ((s.paymentNumber + 1 : ℕ) : ℤ) from rfl, hcast]
        · rw [hget, o3]
          rw [show ((bwStep loan opts M s).paymentNumber : ℤ) =
            ((s.paymentNumber + 1 : ℕ) : ℤ) from rfl, hcast]
        · rw [hget, o4]
          rw [show ((bwStep loan opts M s).paymentNumber : ℤ) =
            ((s.paymentNumber + 1 : ℕ) : ℤ) from rfl, hcast]
        · rw [hget]
          exact o5
        · rw [hget, o6]
          by_cases hni : i + 1 < s.revSchedule.length
          · have hc2 : i + 1 + 1 < (bwStep loan opts M s).revSchedule.length := by
              rw [hlen1]
              omega
            rw [dif_pos hni, dif_pos hc2]
            rfl
          · have hc2 : ¬ (i + 1 + 1 < (bwStep loan opts M s).revSchedule.length) := by
              rw [hlen1]
              omega
            rw [dif_neg hni, dif_neg hc2]

/-- A state property preserved by the body under the loop guard is
preserved by the loop. -/
lemma runLoop_preserves_guarded (step : LoopState → LoopState) (P : LoopState → Prop)
    (hstep : ∀ t, eps < t.balance → P t → P (step t)) :
    ∀ (f : ℕ) (s : LoopState), P s → P (runLoop step f s) := by
  intro f
  induction f with
  | zero => intro s hs; simpa [runLoop] using hs
  | succ n ih =>
      intro s hs
      rw [runLoop]
      split
      · next hb => exact ih _ (hstep s hb hs)
      · exact hs

/-- Every record other than the newest was followed by another
iteration, so its balance was still above epsilon. -/
def BwTailBal (s : LoopState) : Prop :=
  ∀ i (h : i < s.revSchedule.length), i ≠ 0 → eps < (s.revSchedule.get ⟨i, h⟩).balance

lemma bwStep_preserves_BwTailBal (loan : LoanData) (opts : AccelOptions) (M : ℚ)
    (s : LoopState) (hg : eps < s.balance)
    (hhead : ∀ rec, s.revSchedule.head? = some rec → rec.balance = s.balance)
    (ht : BwTailBal s) : BwTailBal (bwStep loan opts M s) := by
  intro i h hne
  cases i with
  | zero => exact absurd rfl hne
  | succ i =>
      have hlen1 : (bwStep loan opts M s).revSchedule.length = s.revSchedule.length + 1 := rfl
      have hlt : i < s.revSchedule.length := by rw [hlen1] at h; omega
      have hget : (bwStep loan opts M s).revSchedule.get ⟨i + 1, h⟩ =
          s.revSchedule.get ⟨i, hlt⟩ := rfl
      rw [hget]
      by_cases hi0 : i = 0
      · subst hi0
        have hne2 : s.revSchedule ≠ [] := List.ne_nil_of_length_pos hlt
        have hh : s.revSchedule.head? = some (s.revSchedule.get ⟨0, hlt⟩) := by
          rw [List.head?_eq_head hne2]
          congr 1
          rw [List.head_eq_getElem_zero hne2]
          rfl
        rw [hhead _ hh]
        exact hg
      · exact ht i hlt hi0

lemma MInv_initState (loan : LoanData) (opts : AccelOptions) (lym : ℤ) :
    MInv loan opts lym (initState loan) := by
  refine ⟨rfl, ?_, ?_⟩
  · constructor
    · intro h
      exact absurd h Bool.false_ne_true
    · intro h
      exfalso
      unfold mLumpIndex at h
      rw [max_le_iff] at h
      have h0 : ((initState loan).paymentNumber : ℤ) = 0 := rfl
      omega
  · intro i h
    simp [initState] at h

lemma BwInv_initState (loan : LoanData) (opts : AccelOptions) (M : ℚ) :
    BwInv loan opts M (initState loan) := by
  refine ⟨rfl, ?_, fun _ => rfl, ?_, ?_⟩
  · constructor
    · intro h
      exact absurd h Bool.false_ne_true
    · intro h
      exfalso
      unfold bwFlagSpec0 at h
      cases hobj : lumpObjOf opts with
      | none =>
          rw [hobj] at h
          exact h
      | some lym =>
          rw [hobj] at h
          dsimp only at h
          have h2 : (0 : ℤ) ≤ bwLumpIndex0 (firstDayOfYM loan.startYM) (firstDayOfYM lym) :=
            le_max_left _ _
          have h0 : ((initState loan).paymentNumber : ℤ) = 0 := rfl
          omega
  · intro rec h
    simp [initState] at h
  · intro i h
    simp [initState] at h

/-- The monthly characterization holds at the end of the accelerated
monthly run whenever the lump sum is active. -/
lemma MInv_final (loan : LoanData) (opts : AccelOptions) (lym : ℤ)
    (hbw : opts.biweekly = false) (hobj : lumpObjOf opts = some lym) :
    MInv loan opts lym (acceleratedFinalState loan opts) := by
  unfold acceleratedFinalState
  rw [hbw]
  simp only [Bool.false_eq_true, if_false]
  exact runLoop_preserves _ _
    (fun t ht => mStep_preserves_MInv loan opts lym _ _ hobj t ht) _ _
    (MInv_initState loan opts lym)

/-- The bi-weekly characterization (plus the tail-balance fact) holds at
the end of the bi-weekly run. -/
lemma BwInv_final (loan : LoanData) (opts : AccelOptions) (hbw : opts.biweekly = true) :
    BwInv loan opts (calculateMonthlyPayment loan.principal loan.annualRate loan.termYears)
        (acceleratedFinalState loan opts) ∧
      BwTailBal (acceleratedFinalState loan opts) := by
  unfold acceleratedFinalState
  rw [hbw]
  simp only [if_true]
  exact runLoop_preserves_guarded _
    (fun t => BwInv loan opts
      (calculateMonthlyPayment loan.principal loan.annualRate loan.termYears) t ∧
        BwTailBal t)
    (fun t hg hp => ⟨bwStep_preserves_BwInv loan opts _ t hp.1,
      bwStep_preserves_BwTailBal loan opts _ t hg hp.1.2.2.2.1 hp.2⟩) _ _
    ⟨BwInv_initState loan opts _, fun i h _ => by simp [initState] at h⟩

/-- Schedule length agrees with the accumulated (reversed) ledger. -/
lemma accel_schedule_length (loan : LoanData) (opts : AccelOptions) :
    (generateAcceleratedSchedule loan opts).schedule.length =
      (acceleratedFinalState loan opts).revSchedule.length :=
  List.length_reverse _

/-- C5: whenever the lump sum is active (`lumpSum > 0` with a supplied
`lumpSumDate`), every record's `extraPayment` decomposes into the
non-lump extras plus the lump sum included at exactly one 1-based period
(`mLumpIndex`, monthly) or 0-based period (`bwLumpIndex0`, bi-weekly);
those indices are exactly the first periods whose month / date is at or
past the lump-sum period, so the lump fires at the first eligible record
and never again. -/
theorem c5_lump_fires_once (loan : LoanData) (opts : AccelOptions) (lym : ℤ)
    (hl : 0 < opts.lumpSum) (hd : opts.lumpSumDate = some lym) :
    (opts.biweekly = false →
      (∀ i (h : i < (generateAcceleratedSchedule loan opts).schedule.length),
        ((generateAcceleratedSchedule loan opts).schedule.get ⟨i, h⟩).extraPayment =
          mBaseExtra opts loan.startYM ((i : ℤ) + 1) +
            (if ((i : ℤ) + 1) = mLumpIndex loan.startYM lym then opts.lumpSum else 0)) ∧
      ∀ j : ℤ, 1 ≤ j →
        (mLumpIndex loan.startYM lym ≤ j ↔ lym ≤ loan.startYM + (j - 1))) ∧
    (opts.biweekly = true →
      (∀ i (h : i < (generateAcceleratedSchedule loan opts).schedule.length),
        ((generateAcceleratedSchedule loan opts).schedule.get ⟨i, h⟩).extraPayment =
          (if 0 < opts.extraMonthly then opts.extraMonthly / (217 / 100) else 0) +
            (if (i : ℤ) = bwLumpIndex0 (firstDayOfYM loan.startYM) (firstDayOfYM lym) then
              opts.lumpSum else 0) +
            bwAnnPart0 opts (firstDayOfYM loan.startYM) (i : ℤ)) ∧
      ∀ k : ℤ, 0 ≤ k →
        (bwLumpIndex0 (firstDayOfYM loan.startYM) (firstDayOfYM lym) ≤ k ↔
          firstDayOfYM lym ≤ bwDayOf (firstDayOfYM loan.startYM) k)) := by
  have hobj : lumpObjOf opts = some lym := by
    unfold lumpObjOf
    rw [if_pos hl, hd]
  have hlenr := accel_schedule_length loan opts
  constructor
  · intro hbw
    constructor
    · intro i h
      have hfin := MInv_final loan opts lym hbw hobj
      unfold MInv at hfin
      obtain ⟨hplen, _, hrec⟩ := hfin
      have hi2 : (acceleratedFinalState loan opts).revSchedule.length - 1 - i <
          (acceleratedFinalState loan opts).revSchedule.length := by omega
      have hgr : (generateAcceleratedSchedule loan opts).schedule.get ⟨i, h⟩ =
          (acceleratedFinalState loan opts).revSchedule.get
            ⟨(acceleratedFinalState loan opts).revSchedule.length - 1 - i, hi2⟩ :=
        List.get_reverse' _ ⟨i, h⟩ hi2
      obtain ⟨_, _, hereq⟩ := hrec _ hi2
      rw [hgr, hereq]
      have hidx : ((acceleratedFinalState loan opts).paymentNumber : ℤ) -
          (((acceleratedFinalState loan opts).revSchedule.length - 1 - i : ℕ) : ℤ) =
          (i : ℤ) + 1 := by omega
      rw [hidx]
    · intro j hj
      exact mLumpIndex_spec loan.startYM lym j hj
  · intro hbw
    constructor
    · intro i h
      have hfin := (BwInv_final loan opts hbw).1
      unfold BwInv at hfin
      obtain ⟨hplen, _, _, _, hrec⟩ := hfin
      have hi2 : (acceleratedFinalState loan opts).revSchedule.length - 1 - i <
          (acceleratedFinalState loan opts).revSchedule.length := by omega
      have hgr : (generateAcceleratedSchedule loan opts).schedule.get ⟨i, h⟩ =
          (acceleratedFinalState loan opts).revSchedule.get
            ⟨(acceleratedFinalState loan opts).revSchedule.length - 1 - i, hi2⟩ :=
        List.get_reverse' _ ⟨i, h⟩ hi2
      obtain ⟨_, _, _, hereq, _, _⟩ := hrec _ hi2
      rw [hgr, hereq]
      have hidx : ((acceleratedFinalState loan opts).paymentNumber : ℤ) -
          (((acceleratedFinalState loan opts).revSchedule.length - 1 - i : ℕ) : ℤ) - 1 =
          (i : ℤ) := by omega
      rw [hidx]
      unfold bwExtraClosed0 bwLumpPart0
      rw [hobj]
    · intro k hk
      exact bwLumpIndex0_spec (firstDayOfYM loan.startYM) (firstDayOfYM lym) k hk

/-- Witness for C5: a concrete active lump sum, with the eligibility
threshold evaluated at period 3. -/
theorem c5_lump_fires_once_witness :
    (0 : ℚ) < 100 ∧
      (mLumpIndex 24288 24290 ≤ 3 ↔ (24290 : ℤ) ≤ 24288 + (3 - 1)) :=
  ⟨by norm_num,
    ((c5_lump_fires_once ⟨1000, 0, 1, 24288⟩ ⟨0, false, 100, some 24290, 0, 0⟩ 24290
      (by norm_num) rfl).1 rfl).2 3 (by norm_num)⟩

/-- C8: in bi-weekly mode every record's date advances by exactly 14
days from the start period's first day; interest accrues as
`previousBalance * (annualRate/100/365) * 14`; every non-final record's
payment is exactly half the base monthly payment; and with
`extraMonthly > 0` each period's extra includes `extraMonthly / 2.17`
on top of the lump/annual contributions. -/
theorem c8_biweekly_conventions (loan : LoanData) (opts : AccelOptions)
    (hbw : opts.biweekly = true) :
    (∀ i (h : i < (generateAcceleratedSchedule loan opts).schedule.length),
      ((generateAcceleratedSchedule loan opts).schedule.get ⟨i, h⟩).day =
        firstDayOfYM loan.startYM + 14 * (i : ℤ)) ∧
    (∀ h0 : 0 < (generateAcceleratedSchedule loan opts).schedule.length,
      ((generateAcceleratedSchedule loan opts).schedule.get ⟨0, h0⟩).interest =
        loan.principal * (loan.annualRate / 100 / 365) * 14) ∧
    (∀ i (h : i + 1 < (generateAcceleratedSchedule loan opts).schedule.length),
      ((generateAcceleratedSchedule loan opts).schedule.get ⟨i + 1, h⟩).interest =
        ((generateAcceleratedSchedule loan opts).schedule.get
          ⟨i, Nat.lt_of_succ_lt h⟩).balance * (loan.annualRate / 100 / 365) * 14) ∧
    (∀ i (h : i + 1 < (generateAcceleratedSchedule loan opts).schedule.length),
      ((generateAcceleratedSchedule loan opts).schedule.get
        ⟨i, Nat.lt_of_succ_lt h⟩).payment =
        calculateMonthlyPayment loan.principal loan.annualRate loan.termYears / 2) ∧
    (0 < opts.extraMonthly →
      ∀ i (h : i < (generateAcceleratedSchedule loan opts).schedule.length),
        ((generateAcceleratedSchedule loan opts).schedule.get ⟨i, h⟩).extraPayment =
          opts.extraMonthly / (217 / 100) +
            (bwLumpPart0 opts (firstDayOfYM loan.startYM) (i : ℤ) +
              bwAnnPart0 opts (firstDayOfYM loan.startYM) (i : ℤ))) := by
  have hlenr := accel_schedule_length loan opts
  have hfin := (BwInv_final loan opts hbw).1
  have htail := (BwInv_final loan opts hbw).2
  unfold BwInv at hfin
  obtain ⟨hplen, _, _, _, hrec⟩ := hfin
  refine ⟨?_, ?_, ?_, ?_, ?_⟩
  · intro i h
    have hi2 : (acceleratedFinalState loan opts).revSchedule.length - 1 - i <
        (acceleratedFinalState loan opts).revSchedule.length := by omega
    have hgr : (generateAcceleratedSchedule loan opts).schedule.get ⟨i, h⟩ =
        (acceleratedFinalState loan opts).revSchedule.get
          ⟨(acceleratedFinalState loan opts).revSchedule.length - 1 - i, hi2⟩ :=
      List.get_reverse' _ ⟨i, h⟩ hi2
    obtain ⟨_, hday, _, _, _, _⟩ := hrec _ hi2
    rw [hgr, hday]
    have hidx : ((acceleratedFinalState loan opts).paymentNumber : ℤ) -
        (((acceleratedFinalState loan opts).revSchedule.length - 1 - i : ℕ) : ℤ) - 1 =
        (i : ℤ) := by omega
    rw [hidx]
    rfl
  · intro h0
    have hi2 : (acceleratedFinalState loan opts).revSchedule.length - 1 - 0 <
        (acceleratedFinalState loan opts).revSchedule.length := by omega
    have hgr : (generateAcceleratedSchedule loan opts).schedule.get ⟨0, h0⟩ =
        (acceleratedFinalState loan opts).revSchedule.get
          ⟨(acceleratedFinalState loan opts).revSchedule.length - 1 - 0, hi2⟩ :=
      List.get_reverse' _ ⟨0, h0⟩ hi2
    obtain ⟨_, _, _, _, _, hint⟩ := hrec _ hi2
    rw [hgr, hint]
    rw [dif_neg (by omega)]
  · intro i h
    have hi2 : (acceleratedFinalState loan opts).revSchedule.length - 1 - (i + 1) <
        (acceleratedFinalState loan opts).revSchedule.length := by omega
    have hgr : (generateAcceleratedSchedule loan opts).schedule.get ⟨i + 1, h⟩ =
        (acceleratedFinalState loan opts).revSchedule.get
          ⟨(acceleratedFinalState loan opts).revSchedule.length - 1 - (i + 1), hi2⟩ :=
      List.get_reverse' _ ⟨i + 1, h⟩ hi2
    obtain ⟨_, _, _, _, _, hint⟩ := hrec _ hi2
    rw [hgr, hint]
    have hc : (acceleratedFinalState loan opts).revSchedule.length - 1 - (i + 1) + 1 <
        (acceleratedFinalState loan opts).revSchedule.length := by omega
    rw [dif_pos hc]
    have hi3 : (acceleratedFinalState loan opts).revSchedule.length - 1 - i <
        (acceleratedFinalState loan opts).revSchedule.length := by omega
    have hfe : (⟨(acceleratedFinalState loan opts).revSchedule.length - 1 - (i + 1) + 1,
        hc⟩ : Fin (acceleratedFinalState loan opts).revSchedule.length) =
        ⟨(acceleratedFinalState loan opts).revSchedule.length - 1 - i, hi3⟩ := by
      apply Fin.ext
      show (acceleratedFinalState loan opts).revSchedule.length - 1 - (i + 1) + 1 =
        (acceleratedFinalState loan opts).revSchedule.length - 1 - i
      omega
    rw [hfe]
    have hgr2 : (generateAcceleratedSchedule loan opts).schedule.get
        ⟨i, Nat.lt_of_succ_lt h⟩ =
        (acceleratedFinalState loan opts).revSchedule.get
          ⟨(acceleratedFinalState loan opts).revSchedule.length - 1 - i, hi3⟩ :=
      List.get_reverse' _ ⟨i, Nat.lt_of_succ_lt h⟩ hi3
    rw [hgr2]
  · intro i h
    have hi3 : (acceleratedFinalState loan opts).revSchedule.length - 1 - i <
        (acceleratedFinalState loan opts).revSchedule.length := by omega
    have hgr2 : (generateAcceleratedSchedule loan opts).schedule.get
        ⟨i, Nat.lt_of_succ_lt h⟩ =
        (acceleratedFinalState loan opts).revSchedule.get
          ⟨(acceleratedFinalState loan opts).revSchedule.length - 1 - i, hi3⟩ :=
      List.get_reverse' _ ⟨i, Nat.lt_of_succ_lt h⟩ hi3
    obtain ⟨_, _, _, _, hpay, _⟩ := hrec _ hi3
    have hb := htail _ hi3 (by omega)
    rw [hgr2]
    rcases hpay with hp | hp
    · exact hp
    · exact absurd hb (not_lt.2 hp)
  · intro he i h
    have hi2 : (acceleratedFinalState loan opts).revSchedule.length - 1 - i <
        (acceleratedFinalState loan opts).revSchedule.length := by omega
    have hgr : (generateAcceleratedSchedule loan opts).schedule.get ⟨i, h⟩ =
        (acceleratedFinalState loan opts).revSchedule.get
          ⟨(acceleratedFinalState loan opts).revSchedule.length - 1 - i, hi2⟩ :=
      List.get_reverse' _ ⟨i, h⟩ hi2
    obtain ⟨_, _, _, hereq, _, _⟩ := hrec _ hi2
    rw [hgr, hereq]
    have hidx : ((acceleratedFinalState loan opts).paymentNumber : ℤ) -
        (((acceleratedFinalState loan opts).revSchedule.length - 1 - i : ℕ) : ℤ) - 1 =
        (i : ℤ) := by omega
    rw [hidx]
    unfold bwExtraClosed0
    rw [if_pos he, add_assoc]

/-- A concrete bi-weekly run producing a nonempty schedule. -/
lemma c8_bw_len_pos :
    0 < (generateAcceleratedSchedule ⟨1, 0, 1, 24288⟩
      ⟨1, true, 0, none, 0, 0⟩).schedule.length := by
  rw [accel_schedule_length]
  have hfs : acceleratedFinalState ⟨1, 0, 1, 24288⟩ ⟨1, true, 0, none, 0, 0⟩ =
      runLoop (bwStep ⟨1, 0, 1, 24288⟩ ⟨1, true, 0, none, 0, 0⟩
        (calculateMonthlyPayment 1 0 1)) 48 (initState ⟨1, 0, 1, 24288⟩) := rfl
  have hunf : runLoop (bwStep ⟨1, 0, 1, 24288⟩ ⟨1, true, 0, none, 0, 0⟩
        (calculateMonthlyPayment 1 0 1)) 48 (initState ⟨1, 0, 1, 24288⟩) =
      if eps < (initState ⟨1, 0, 1, 24288⟩).balance then
        runLoop (bwStep ⟨1, 0, 1, 24288⟩ ⟨1, true, 0, none, 0, 0⟩
          (calculateMonthlyPayment 1 0 1)) 47
          (bwStep ⟨1, 0, 1, 24288⟩ ⟨1, true, 0, none, 0, 0⟩
            (calculateMonthlyPayment 1 0 1) (initState ⟨1, 0, 1, 24288⟩))
      else initState ⟨1, 0, 1, 24288⟩ := rfl
  rw [hfs, hunf, if_pos (by norm_num [initState, eps])]
  have hb : ∀ t : LoopState, t.revSchedule.length ≤
      (bwStep ⟨1, 0, 1, 24288⟩ ⟨1, true, 0, none, 0, 0⟩
        (calculateMonthlyPayment 1 0 1) t).revSchedule.length := by
    intro t
    show t.revSchedule.length ≤ t.revSchedule.length + 1
    omega
  have hone : 0 < (bwStep ⟨1, 0, 1, 24288⟩ ⟨1, true, 0, none, 0, 0⟩
      (calculateMonthlyPayment 1 0 1) (initState ⟨1, 0, 1, 24288⟩)).revSchedule.length := by
    show 0 < 0 + 1
    omega
  exact lt_of_lt_of_le hone (runLoop_length_mono _ hb 47 _)

/-- Witness for C8: the extra-payment decomposition evaluated on a
concrete bi-weekly schedule's first record. -/
theorem c8_biweekly_conventions_witness :
    (0 : ℚ) < 1 ∧
      ((generateAcceleratedSchedule ⟨1, 0, 1, 24288⟩ ⟨1, true, 0, none, 0, 0⟩).schedule.get
          ⟨0, c8_bw_len_pos⟩).extraPayment =
        1 / (217 / 100) +
          (bwLumpPart0 ⟨1, true, 0, none, 0, 0⟩ (firstDayOfYM 24288) ((0 : ℕ) : ℤ) +
            bwAnnPart0 ⟨1, true, 0, none, 0, 0⟩ (firstDayOfYM 24288) ((0 : ℕ) : ℤ)) :=
  ⟨by norm_num,
    (c8_biweekly_conventions ⟨1, 0, 1, 24288⟩ ⟨1, true, 0, none, 0, 0⟩ rfl).2.2.2.2
      (by norm_num) 0 c8_bw_len_pos⟩

end Mortgage
